import Mathlib

/-!
# Prisoner's Dilemma on a fixed random network: embedding of `pd_simulation.c`

The C program keeps two global arrays (`agents`, `network`) and draws from the
C library generator `rand()`.  The embedding makes all of that explicit:

* the arrays are total maps from indices to values (`Nat → Agent`,
  `Nat → Nat → Nat`); the C arrays are the parts with index below `N_AGENTS`
  (and slot below `DEGREE`);
* the C library is a record `Libc`: the stream of values that successive calls
  of `rand()` return, the constant `RAND_MAX`, and the function `exp`;
* the number of `rand()` calls made so far is a field of the state, so every
  draw is an explicit read of the stream followed by an increment;
* `int` values are `Int`; no counter of the program comes near the `int`
  range (`coop_count` is at most 400, the strategy counts at most 100);
* `double` values are exact rationals `ℚ`, and `randu` is the exact quotient
  `rand() / RAND_MAX`.  Payoff sums are also given in double arithmetic
  (`apply_payoff_double`, rounding to the nearest binary64 value): the two agree
  on integer payoffs of magnitude at most `2 ^ 52` and so in every run, where
  the payoffs are integers between 0 and 2400 (`evolve_double_payoffs_eq`); they
  differ from `2 ^ 53` on.  A noise probability that is not a number or is
  infinite behaves in `randu() < p_noise` like a rational one that no draw (or
  every draw) is below;
* `exp` is a field of `Libc`, so every statement proved for all `Libc` holds
  whatever the accept test of the imitation step answers;
* `for (int i = 0; i < n; i++)` is `forLoop body n`;
* `main` is modelled from `srand(42)` on: the arguments are parsed and the
  output file is open.
-/

namespace PdSimulation

/-! ## Parameters -/

/-- Number of agents in the population. -/
def N_AGENTS : Nat := 100
/-- Number of simulation time steps. -/
def N_STEPS : Nat := 500
/-- Number of neighbors per agent. -/
def DEGREE : Nat := 4

/-- Always Cooperate. -/
def ALLC : Int := 0
/-- Always Defect. -/
def ALLD : Int := 1
/-- Tit-for-Tat. -/
def TFT : Int := 2
/-- Grudger. -/
def GRUD : Int := 3

/-- Reward for mutual cooperation. -/
def R : ℚ := 3
/-- Temptation to defect. -/
def T : ℚ := 5
/-- Sucker payoff. -/
def S : ℚ := 0
/-- Punishment for mutual defection. -/
def P : ℚ := 1

/-! ## Data structures -/

/-- A single agent (`typedef struct { ... } Agent`). -/
structure Agent where
  strategy : Int
  last_action : Int
  grudged : Int
  payoff : ℚ

/-- The C library as the program sees it: the values returned by successive
calls of `rand()`, the constant `RAND_MAX`, and `exp`. -/
structure Libc where
  rand_stream : Nat → Nat
  RAND_MAX : Nat
  exp : ℚ → ℚ

/-- Program state: the two global arrays, the number of `rand()` calls made so
far, the local `coop_count` of `main`, and the records written to the output
file so far, as pairs `(t, coop_frac)`. -/
structure Sim where
  agents : Nat → Agent
  network : Nat → Nat → Nat
  rand_calls : Nat
  coop_count : Int
  out : List (Nat × ℚ)

/-- The loop `for (int i = 0; i < n; i++) body(i)`, threading the state. -/
def forLoop {σ : Type} (body : Nat → σ → σ) : Nat → σ → σ
  | 0, s => s
  | n + 1, s => body n (forLoop body n s)

/-! ## Random numbers -/

/-- One call of `rand()`: the next value of the stream, and the state with one
more call counted. -/
def rand (E : Libc) (s : Sim) : Nat × Sim :=
  (E.rand_stream s.rand_calls, { s with rand_calls := s.rand_calls + 1 })

/-- The function `randu`: `rand() / (double) RAND_MAX`. -/
def randu (E : Libc) (s : Sim) : ℚ × Sim :=
  let r := rand E s
  ((r.1 : ℚ) / (E.RAND_MAX : ℚ), r.2)

/-! ## Network and agents -/

/-- The assignment `network[i][d] = v`. -/
def set_network (s : Sim) (i d v : Nat) : Sim :=
  { s with network := Function.update s.network i (Function.update (s.network i) d v) }

/-- Body of the inner loop of `init_network`. -/
def init_network_slot (E : Libc) (i d : Nat) (s : Sim) : Sim :=
  let r := rand E s
  set_network r.2 i d (r.1 % N_AGENTS)

/-- The function `init_network`. -/
def init_network (E : Libc) (s : Sim) : Sim :=
  forLoop (fun i s => forLoop (fun d s => init_network_slot E i d s) DEGREE s) N_AGENTS s

/-- Body of the loop of `init_agents`. -/
def init_agent (E : Libc) (i : Nat) (s : Sim) : Sim :=
  let r := rand E s
  let a : Agent := { strategy := ((r.1 % 4 : Nat) : Int), last_action := 1, grudged := 0, payoff := 0 }
  { r.2 with agents := Function.update r.2.agents i a }

/-- The function `init_agents`. -/
def init_agents (E : Libc) (s : Sim) : Sim :=
  forLoop (init_agent E) N_AGENTS s

/-! ## Action and payoff -/

/-- The function `choose_action`: agent `i`'s action when interacting with
agent `j`. -/
def choose_action (s : Sim) (i j : Nat) : Int :=
  let a := s.agents i
  let b := s.agents j
  if a.strategy = ALLC then 1
  else if a.strategy = ALLD then 0
  else if a.strategy = TFT then b.last_action
  else if a.strategy = GRUD then (if a.grudged ≠ 0 then 0 else 1)
  else 1

/-- The statement `agents[k].payoff += v`. -/
def add_payoff (s : Sim) (k : Nat) (v : ℚ) : Sim :=
  let a : Agent := { s.agents k with payoff := (s.agents k).payoff + v }
  { s with agents := Function.update s.agents k a }

/-- The function `apply_payoff`. -/
def apply_payoff (s : Sim) (i j : Nat) (ai aj : Int) : Sim :=
  if ai = 1 ∧ aj = 1 then add_payoff (add_payoff s i R) j R
  else if ai = 1 ∧ aj = 0 then add_payoff (add_payoff s i S) j T
  else if ai = 0 ∧ aj = 1 then add_payoff (add_payoff s i T) j S
  else add_payoff (add_payoff s i P) j P

/-! ## Imitation dynamics -/

/-- The Fermi imitation probability `1.0 / (1.0 + exp(-beta * (pj - pi)))`,
over any number type with the given `exp`. -/
def fermi_prob {α : Type} [DivisionRing α] (exp : α → α) (beta pi pj : α) : α :=
  1 / (1 + exp (-beta * (pj - pi)))

/-- The assignment `agents[k].strategy = v`. -/
def set_strategy (s : Sim) (k : Nat) (v : Int) : Sim :=
  { s with agents := Function.update s.agents k { s.agents k with strategy := v } }

/-- Body of the loop of `imitation_step`. -/
def imitate (E : Libc) (beta : ℚ) (i : Nat) (s : Sim) : Sim :=
  let r := rand E s
  let j := r.2.network i (r.1 % DEGREE)
  let pi := (r.2.agents i).payoff
  let pj := (r.2.agents j).payoff
  let prob := fermi_prob E.exp beta pi pj
  let u := randu E r.2
  if u.1 < prob then set_strategy u.2 i (u.2.agents j).strategy else u.2

/-- The function `imitation_step`. -/
def imitation_step (E : Libc) (beta : ℚ) (s : Sim) : Sim :=
  forLoop (imitate E beta) N_AGENTS s

/-! ## Main loop -/

/-- The assignment `agents[k].grudged = v`. -/
def set_grudged (s : Sim) (k : Nat) (v : Int) : Sim :=
  { s with agents := Function.update s.agents k { s.agents k with grudged := v } }

/-- The assignment `agents[k].last_action = v`. -/
def set_last_action (s : Sim) (k : Nat) (v : Int) : Sim :=
  { s with agents := Function.update s.agents k { s.agents k with last_action := v } }

/-- The assignment `agents[i].payoff = 0.0` of the reset loop. -/
def reset_payoff (i : Nat) (s : Sim) : Sim :=
  { s with agents := Function.update s.agents i { s.agents i with payoff := 0 } }

/-- The value of `ai` after the first noise draw of the interaction of agent
`i` with its slot `d`, in state `s`. -/
def noisy_ai (E : Libc) (p_noise : ℚ) (i d : Nat) (s : Sim) : Int :=
  let j := s.network i d
  let ai := choose_action s i j
  if (randu E s).1 < p_noise then 1 - ai else ai

/-- The value of `aj` after the second noise draw of the interaction of agent
`i` with its slot `d`, in state `s`. -/
def noisy_aj (E : Libc) (p_noise : ℚ) (i d : Nat) (s : Sim) : Int :=
  let j := s.network i d
  let aj := choose_action s j i
  if (randu E (randu E s).2).1 < p_noise then 1 - aj else aj

/-- Body of the pairwise-interaction loops of `main`: agent `i` meets the
neighbor in its slot `d`. -/
def interaction (E : Libc) (p_noise : ℚ) (i d : Nat) (s : Sim) : Sim :=
  let j := s.network i d
  let ai := noisy_ai E p_noise i d s
  let aj := noisy_aj E p_noise i d s
  let s := (randu E (randu E s).2).2
  let s := if ai = 0 then set_grudged s j 1 else s
  let s := if aj = 0 then set_grudged s i 1 else s
  let s := apply_payoff s i j ai aj
  let s := set_last_action s i ai
  let s := set_last_action s j aj
  if ai = 1 then { s with coop_count := s.coop_count + 1 } else s

/-- The pairwise-interaction loops of one time step. -/
def interactions (E : Libc) (p_noise : ℚ) (s : Sim) : Sim :=
  forLoop (fun i s => forLoop (fun d s => interaction E p_noise i d s) DEGREE s) N_AGENTS s

/-- Body of the time-evolution loop of `main`: step `t`. -/
def step (E : Libc) (p_noise : ℚ) (t : Nat) (s : Sim) : Sim :=
  let s := forLoop reset_payoff N_AGENTS s
  let s := { s with coop_count := 0 }
  let s := interactions E p_noise s
  let s := imitation_step E 1 s
  let coop_frac : ℚ := (s.coop_count : ℚ) / ((N_AGENTS * DEGREE : Nat) : ℚ)
  { s with out := s.out ++ [(t, coop_frac)] }

/-- The time-evolution loop run for `n` steps. -/
def evolve (E : Libc) (p_noise : ℚ) (n : Nat) (s : Sim) : Sim :=
  forLoop (step E p_noise) n s

/-- The state at program start: zero-initialised globals, no `rand()` call
made, nothing written. -/
def start : Sim :=
  { agents := fun _ => { strategy := 0, last_action := 0, grudged := 0, payoff := 0 }
    network := fun _ _ => 0
    rand_calls := 0
    coop_count := 0
    out := [] }

/-- The state after `init_network(); init_agents();`. -/
def init (E : Libc) : Sim :=
  init_agents E (init_network E start)

/-- The loop filling `count[4]`: `count[agents[i].strategy]++`. -/
def final_count (s : Sim) : Int → Int :=
  forLoop (fun i count =>
    Function.update count (s.agents i).strategy (count (s.agents i).strategy + 1))
    N_AGENTS (fun _ => 0)

/-- What a run writes: the per-step records and the final strategy fractions. -/
structure Output where
  records : List (Nat × ℚ)
  final : ℚ × ℚ × ℚ × ℚ

/-- The final record: `count[k] / (double) N_AGENTS` in the order ALLC, ALLD,
TFT, GRUD. -/
def final_fractions (s : Sim) : ℚ × ℚ × ℚ × ℚ :=
  let count := final_count s
  ((count ALLC : ℚ) / (N_AGENTS : ℚ), (count ALLD : ℚ) / (N_AGENTS : ℚ),
   (count TFT : ℚ) / (N_AGENTS : ℚ), (count GRUD : ℚ) / (N_AGENTS : ℚ))

/-- The function `main` once the arguments are parsed and the output file is
open: initialise, run `N_STEPS` steps, write the final fractions. -/
def main (E : Libc) (p_noise : ℚ) : Output :=
  let s := evolve E p_noise N_STEPS (init E)
  { records := s.out, final := final_fractions s }

/-! ## Sample data and the order of states in a run -/

/-- A state with a TitForTat agent 0 whose neighbor 1 last defected, used to
evaluate the definitions. -/
def sample : Sim :=
  { agents := fun k =>
      if k = 0 then { strategy := 2, last_action := 1, grudged := 0, payoff := 2 }
      else if k = 1 then { strategy := 3, last_action := 0, grudged := 1, payoff := 7 }
      else { strategy := 0, last_action := 1, grudged := 0, payoff := 0 }
    network := fun i d => (i + d + 1) % 3
    rand_calls := 0
    coop_count := 0
    out := [] }

/-- A C library used to evaluate the definitions: a small congruential stream,
`RAND_MAX = 32767`, and a rational stand-in for `exp`. -/
def sample_libc : Libc :=
  { rand_stream := fun n => (n * 7919 + 13) % 32768
    RAND_MAX := 32767
    exp := fun x => 1 + x + x * x / 2 }

/-- Well-formed network: every neighbor entry of every agent is an agent
index. -/
def network_ok (s : Sim) : Prop :=
  ∀ i d, i < N_AGENTS → d < DEGREE → s.network i d < N_AGENTS

/-- Every agent of the population plays strategy `v`. -/
def all_play (v : Int) (s : Sim) : Prop :=
  ∀ k, k < N_AGENTS → (s.agents k).strategy = v

/-- A population in which every agent plays `v`, on a ring-like network where
slot `d` of agent `i` holds agent `(i + d + 1) % N_AGENTS`. -/
def uniform_sample (v : Int) : Sim :=
  { agents := fun _ => { strategy := v, last_action := 1, grudged := 0, payoff := 0 }
    network := fun i d => (i + d + 1) % N_AGENTS
    rand_calls := 0
    coop_count := 0
    out := [] }

/-- Every agent of the population holds one of the four defined strategies. -/
def strategy_ok (s : Sim) : Prop :=
  ∀ k, k < N_AGENTS →
    (s.agents k).strategy = ALLC ∨ (s.agents k).strategy = ALLD ∨
    (s.agents k).strategy = TFT ∨ (s.agents k).strategy = GRUD

/-- Well-formedness of the network can be checked by running over the array. -/
instance network_ok_decidable (s : Sim) : Decidable (network_ok s) :=
  decidable_of_iff (∀ i, i < N_AGENTS → ∀ d, d < DEGREE → s.network i d < N_AGENTS)
    ⟨fun h i d hi hd => h i hi d hd, fun h i hi d hd => h i d hi hd⟩

/-- Whether every agent plays `v` can be checked by running over the array. -/
instance all_play_decidable (v : Int) (s : Sim) : Decidable (all_play v s) :=
  inferInstanceAs (Decidable (∀ k, k < N_AGENTS → (s.agents k).strategy = v))

/-- Strategy validity can be checked by running over the array. -/
instance strategy_ok_decidable (s : Sim) : Decidable (strategy_ok s) :=
  inferInstanceAs (Decidable (∀ k, k < N_AGENTS →
    (s.agents k).strategy = ALLC ∨ (s.agents k).strategy = ALLD ∨
    (s.agents k).strategy = TFT ∨ (s.agents k).strategy = GRUD))

/-- `Later E p_noise s s1`: state `s1` comes after (or is) state `s` in a run with
noise probability `p_noise`, that is, `s1` is obtained from `s` by any number of
the elementary transitions of the time-evolution loop: a payoff reset of one
agent, the reset of the cooperation counter, one interaction, one agent's
imitation, the writing of one record. -/
inductive Later (E : Libc) (p_noise : ℚ) : Sim → Sim → Prop
  | refl (s : Sim) : Later E p_noise s s
  | reset (s s1 : Sim) (i : Nat) :
      Later E p_noise s s1 → Later E p_noise s (reset_payoff i s1)
  | clear (s s1 : Sim) :
      Later E p_noise s s1 → Later E p_noise s { s1 with coop_count := 0 }
  | interact (s s1 : Sim) (i d : Nat) :
      Later E p_noise s s1 → Later E p_noise s (interaction E p_noise i d s1)
  | imitation (s s1 : Sim) (i : Nat) :
      Later E p_noise s s1 → Later E p_noise s (imitate E 1 i s1)
  | emit (s s1 : Sim) (r : Nat × ℚ) :
      Later E p_noise s s1 → Later E p_noise s { s1 with out := s1.out ++ [r] }

/-- The state of the sample run in which the next draw of `sample_libc` is
`RAND_MAX`: draw number 7982 of its stream is 32767. -/
def before_largest_draw : Sim :=
  { start with rand_calls := 7982 }

/-- No agent plays AlwaysDefect, every agent's last action is Cooperate and no
agent holds a grudge. -/
def peaceful (s : Sim) : Prop :=
  ∀ k, k < N_AGENTS →
    (s.agents k).strategy ≠ ALLD ∧ (s.agents k).last_action = 1 ∧ (s.agents k).grudged = 0

/-- Whether a population is peaceful can be checked by running over the array. -/
instance peaceful_decidable (s : Sim) : Decidable (peaceful s) :=
  inferInstanceAs (Decidable (∀ k, k < N_AGENTS →
    (s.agents k).strategy ≠ ALLD ∧ (s.agents k).last_action = 1 ∧ (s.agents k).grudged = 0))

/-! ## The loop with every access checked

The same loop as above, in which every array access first checks its index
against the declared bounds (`Agent agents[N_AGENTS]`,
`int network[N_AGENTS][DEGREE]`, `int count[4]`) and every division and modulo
first checks its divisor; a failed check ends the run with `none`. -/

/-- The loop `for (int i = 0; i < n; i++) body(i)` when an iteration can fail:
the loop ends at the first failure. -/
def forLoopM {σ : Type} (body : Nat → σ → Option σ) : Nat → σ → Option σ
  | 0, s => some s
  | n + 1, s => (forLoopM body n s).bind (body n)

/-- The reset `agents[i].payoff = 0.0`, which accesses `agents[i]`. -/
def reset_payoff_checked (i : Nat) (s : Sim) : Option Sim :=
  if i < N_AGENTS then some (reset_payoff i s) else none

/-- One interaction.  It reads `network[i][d]`, and every other access it makes
(in `choose_action`, in the grudge and last-action updates, in `apply_payoff`) is
to `agents[i]` or `agents[j]` with `j = network[i][d]`; each of its two calls of
`randu` divides by `RAND_MAX`. -/
def interaction_checked (E : Libc) (p_noise : ℚ) (i d : Nat) (s : Sim) : Option Sim :=
  if i < N_AGENTS ∧ d < DEGREE ∧ s.network i d < N_AGENTS ∧ E.RAND_MAX ≠ 0 then
    some (interaction E p_noise i d s)
  else none

/-- The interaction loops of a step, checked. -/
def interactions_checked (E : Libc) (p_noise : ℚ) (s : Sim) : Option Sim :=
  forLoopM (fun i s => forLoopM (fun d s => interaction_checked E p_noise i d s) DEGREE s)
    N_AGENTS s

/-- One imitation.  It computes `rand() % DEGREE`, reads
`network[i][rand() % DEGREE]`, accesses `agents[i]` and `agents[j]` for the
neighbor `j` found there, divides by `1.0 + exp(...)` and, in `randu`, by
`RAND_MAX`. -/
def imitate_checked (E : Libc) (beta : ℚ) (i : Nat) (s : Sim) : Option Sim :=
  let slot := (rand E s).1 % DEGREE
  let j := s.network i slot
  if DEGREE ≠ 0 ∧ i < N_AGENTS ∧ slot < DEGREE ∧ j < N_AGENTS ∧
      1 + E.exp (-beta * ((s.agents j).payoff - (s.agents i).payoff)) ≠ 0 ∧
      E.RAND_MAX ≠ 0 then
    some (imitate E beta i s)
  else none

/-- The function `imitation_step`, checked. -/
def imitation_step_checked (E : Libc) (beta : ℚ) (s : Sim) : Option Sim :=
  forLoopM (imitate_checked E beta) N_AGENTS s

/-- One time step, checked; the cooperation fraction divides by
`N_AGENTS * DEGREE`. -/
def step_checked (E : Libc) (p_noise : ℚ) (t : Nat) (s : Sim) : Option Sim :=
  (forLoopM reset_payoff_checked N_AGENTS s).bind fun s1 =>
  (interactions_checked E p_noise { s1 with coop_count := 0 }).bind fun s2 =>
  (imitation_step_checked E 1 s2).bind fun s3 =>
  if N_AGENTS * DEGREE ≠ 0 then
    some { s3 with out := s3.out ++
      [(t, (s3.coop_count : ℚ) / ((N_AGENTS * DEGREE : Nat) : ℚ))] }
  else none

/-- The time-evolution loop run for `n` steps, checked. -/
def evolve_checked (E : Libc) (p_noise : ℚ) (n : Nat) (s : Sim) : Option Sim :=
  forLoopM (step_checked E p_noise) n s

/-- The loop filling `count[4]`, checked: it accesses `agents[i]` and
`count[agents[i].strategy]`. -/
def final_count_checked (s : Sim) : Option (Int → Int) :=
  forLoopM (fun i count =>
    if i < N_AGENTS ∧ 0 ≤ (s.agents i).strategy ∧ (s.agents i).strategy < 4 then
      some (Function.update count (s.agents i).strategy (count (s.agents i).strategy + 1))
    else none)
    N_AGENTS (fun _ => 0)

/-- The time loop and the final count of `main`, checked, from the state after
initialisation; the final fractions divide by `N_AGENTS`. -/
def main_checked (E : Libc) (p_noise : ℚ) : Option Output :=
  (evolve_checked E p_noise N_STEPS (init E)).bind fun s =>
  (final_count_checked s).bind fun count =>
  if N_AGENTS ≠ 0 then
    some { records := s.out,
           final := ((count ALLC : ℚ) / (N_AGENTS : ℚ), (count ALLD : ℚ) / (N_AGENTS : ℚ),
                     (count TFT : ℚ) / (N_AGENTS : ℚ), (count GRUD : ℚ) / (N_AGENTS : ℚ)) }
  else none

/-! ## Runs that start from different memories or draw from different streams -/

/-- The state at program start when the memory of the two global arrays (and
around them) holds arbitrary contents `a` and `w`. -/
def memory (a : Nat → Agent) (w : Nat → Nat → Nat) : Sim :=
  { agents := a, network := w, rand_calls := 0, coop_count := 0, out := [] }

/-- The run of `main` from a given start state. -/
def main_from (E : Libc) (p_noise : ℚ) (s0 : Sim) : Output :=
  let s := evolve E p_noise N_STEPS (init_agents E (init_network E s0))
  { records := s.out, final := final_fractions s }

/-- Two C libraries with the same `RAND_MAX`, the same `exp` and the same first
`B` draws. -/
def same_draws (B : Nat) (E E1 : Libc) : Prop :=
  E.RAND_MAX = E1.RAND_MAX ∧ E.exp = E1.exp ∧ ∀ n, n < B → E.rand_stream n = E1.rand_stream n

/-- Two states that hold the same agents in `agents[0 .. N_AGENTS)`, the same
entries in `network[0 .. N_AGENTS)[0 .. DEGREE)`, and the same draw counter,
cooperation counter and output. -/
def same_data (s s1 : Sim) : Prop :=
  (∀ k, k < N_AGENTS → s.agents k = s1.agents k) ∧
  (∀ i d, i < N_AGENTS → d < DEGREE → s.network i d = s1.network i d) ∧
  s.rand_calls = s1.rand_calls ∧ s.coop_count = s1.coop_count ∧ s.out = s1.out

/-! ## Payoffs in double arithmetic

The field `payoff` is a C `double`.  The definitions above add payoffs as exact
rationals; the ones below add them as the machine does, rounding the exact sum
to the nearest binary64 value (53 significant bits, smallest exponent -1022),
a tie going to the value with the even significand.  Sums at or beyond the
overflow threshold `2 ^ 1024` are outside this model. -/

/-- The integer nearest to `q`, a tie going to the even one. -/
def round_half_even (q : ℚ) : ℤ :=
  if q - ⌊q⌋ < 1 / 2 then ⌊q⌋
  else if 1 / 2 < q - ⌊q⌋ then ⌊q⌋ + 1
  else if ⌊q⌋ % 2 = 0 then ⌊q⌋ else ⌊q⌋ + 1

/-- The spacing of the binary64 values at `x`: `2 ^ (e - 52)` where
`2 ^ e ≤ |x| < 2 ^ (e + 1)`, and `e` is not taken below -1022. -/
def double_ulp (x : ℚ) : ℚ :=
  (2 : ℚ) ^ (max (Int.log 2 |x|) (-1022) - 52)

/-- The binary64 value nearest to `x`, ties to even. -/
def round_double (x : ℚ) : ℚ :=
  (round_half_even (x / double_ulp x) : ℚ) * double_ulp x

/-- The sum of two `double` values as the machine computes it. -/
def double_add (x y : ℚ) : ℚ :=
  round_double (x + y)

/-- The statement `agents[k].payoff += v` in double arithmetic. -/
def add_payoff_double (s : Sim) (k : Nat) (v : ℚ) : Sim :=
  let a : Agent := { s.agents k with payoff := double_add (s.agents k).payoff v }
  { s with agents := Function.update s.agents k a }

/-- The function `apply_payoff` in double arithmetic. -/
def apply_payoff_double (s : Sim) (i j : Nat) (ai aj : Int) : Sim :=
  if ai = 1 ∧ aj = 1 then add_payoff_double (add_payoff_double s i R) j R
  else if ai = 1 ∧ aj = 0 then add_payoff_double (add_payoff_double s i S) j T
  else if ai = 0 ∧ aj = 1 then add_payoff_double (add_payoff_double s i T) j S
  else add_payoff_double (add_payoff_double s i P) j P

/-- A state in which every agent's payoff is `2 ^ 53`, where the binary64
values are 2 apart. -/
def huge_payoffs : Sim :=
  { agents := fun _ =>
      { strategy := 0, last_action := 1, grudged := 0, payoff := 9007199254740992 }
    network := fun i d => (i + d + 1) % N_AGENTS
    rand_calls := 0
    coop_count := 0
    out := [] }

/-- The interaction of agent `i` with its slot `d`, with the payoffs summed in
double arithmetic and all else as in `interaction`. -/
def interaction_double_payoffs (E : Libc) (p_noise : ℚ) (i d : Nat) (s : Sim) : Sim :=
  let j := s.network i d
  let ai := noisy_ai E p_noise i d s
  let aj := noisy_aj E p_noise i d s
  let s := (randu E (randu E s).2).2
  let s := if ai = 0 then set_grudged s j 1 else s
  let s := if aj = 0 then set_grudged s i 1 else s
  let s := apply_payoff_double s i j ai aj
  let s := set_last_action s i ai
  let s := set_last_action s j aj
  if ai = 1 then { s with coop_count := s.coop_count + 1 } else s

/-- The interaction loops of one time step, with the payoffs summed in double
arithmetic. -/
def interactions_double_payoffs (E : Libc) (p_noise : ℚ) (s : Sim) : Sim :=
  forLoop (fun i s => forLoop (fun d s => interaction_double_payoffs E p_noise i d s) DEGREE s)
    N_AGENTS s

/-- One time step, with the payoffs summed in double arithmetic. -/
def step_double_payoffs (E : Libc) (p_noise : ℚ) (t : Nat) (s : Sim) : Sim :=
  let s := forLoop reset_payoff N_AGENTS s
  let s := { s with coop_count := 0 }
  let s := interactions_double_payoffs E p_noise s
  let s := imitation_step E 1 s
  let coop_frac : ℚ := (s.coop_count : ℚ) / ((N_AGENTS * DEGREE : Nat) : ℚ)
  { s with out := s.out ++ [(t, coop_frac)] }

/-- The time-evolution loop run for `n` steps, with the payoffs summed in
double arithmetic. -/
def evolve_double_payoffs (E : Libc) (p_noise : ℚ) (n : Nat) (s : Sim) : Sim :=
  forLoop (step_double_payoffs E p_noise) n s

/-- Every agent's payoff is an integer between 0 and `b`. -/
def payoffs_at_most (b : ℤ) (s : Sim) : Prop :=
  ∀ k, k < N_AGENTS → ∃ n : ℤ, 0 ≤ n ∧ n ≤ b ∧ (s.agents k).payoff = (n : ℚ)

/-! ## Loops -/

/-- Loop rule with an invariant that may mention the iteration number. -/
theorem forLoop_induction {σ : Type} (Inv : Nat → σ → Prop) (body : Nat → σ → σ) (n : Nat)
    (hstep : ∀ i, i < n → ∀ s, Inv i s → Inv (i + 1) (body i s))
    (s : σ) (h0 : Inv 0 s) : Inv n (forLoop body n s) := by
  induction n with
  | zero => exact h0
  | succ m ih =>
    have hm : Inv m (forLoop body m s) :=
      ih (fun i hi t ht => hstep i (Nat.lt_succ_of_lt hi) t ht)
    exact hstep m (Nat.lt_succ_self m) _ hm

/-- Loop rule with a plain invariant. -/
theorem forLoop_invariant {σ : Type} (Inv : σ → Prop) (body : Nat → σ → σ) (n : Nat)
    (hstep : ∀ i, i < n → ∀ s, Inv s → Inv (body i s))
    (s : σ) (h0 : Inv s) : Inv (forLoop body n s) :=
  forLoop_induction (fun _ t => Inv t) body n hstep s h0

/-! ## Field lemmas for the elementary statements -/

section fields

variable (E : Libc) (s : Sim) (k m : Nat) (v : Int) (q : ℚ)

@[simp]
theorem rand_agents : (rand E s).2.agents = s.agents := rfl
@[simp]
theorem rand_network : (rand E s).2.network = s.network := rfl
@[simp]
theorem rand_coop_count : (rand E s).2.coop_count = s.coop_count := rfl
@[simp]
theorem rand_out : (rand E s).2.out = s.out := rfl
@[simp]
theorem rand_rand_calls : (rand E s).2.rand_calls = s.rand_calls + 1 := rfl
@[simp]
theorem rand_value : (rand E s).1 = E.rand_stream s.rand_calls := rfl

@[simp]
theorem randu_agents : (randu E s).2.agents = s.agents := rfl
@[simp]
theorem randu_network : (randu E s).2.network = s.network := rfl
@[simp]
theorem randu_coop_count : (randu E s).2.coop_count = s.coop_count := rfl
@[simp]
theorem randu_out : (randu E s).2.out = s.out := rfl
@[simp]
theorem randu_rand_calls : (randu E s).2.rand_calls = s.rand_calls + 1 := rfl
theorem randu_value :
    (randu E s).1 = (E.rand_stream s.rand_calls : ℚ) / (E.RAND_MAX : ℚ) := rfl

@[simp]
theorem set_grudged_network : (set_grudged s k v).network = s.network := rfl
@[simp]
theorem set_grudged_coop_count : (set_grudged s k v).coop_count = s.coop_count := rfl
@[simp]
theorem set_grudged_out : (set_grudged s k v).out = s.out := rfl
@[simp]
theorem set_grudged_rand_calls : (set_grudged s k v).rand_calls = s.rand_calls := rfl
@[simp]
theorem set_grudged_strategy :
    ((set_grudged s k v).agents m).strategy = (s.agents m).strategy := by
  by_cases h : m = k <;> simp [set_grudged, h]
@[simp]
theorem set_grudged_last_action :
    ((set_grudged s k v).agents m).last_action = (s.agents m).last_action := by
  by_cases h : m = k <;> simp [set_grudged, h]
@[simp]
theorem set_grudged_payoff :
    ((set_grudged s k v).agents m).payoff = (s.agents m).payoff := by
  by_cases h : m = k <;> simp [set_grudged, h]
@[simp]
theorem set_grudged_grudged :
    ((set_grudged s k v).agents m).grudged = if m = k then v else (s.agents m).grudged := by
  by_cases h : m = k <;> simp [set_grudged, h]

@[simp]
theorem set_last_action_network : (set_last_action s k v).network = s.network := rfl
@[simp]
theorem set_last_action_coop_count :
    (set_last_action s k v).coop_count = s.coop_count := rfl
@[simp]
theorem set_last_action_out : (set_last_action s k v).out = s.out := rfl
@[simp]
theorem set_last_action_rand_calls :
    (set_last_action s k v).rand_calls = s.rand_calls := rfl
@[simp]
theorem set_last_action_strategy :
    ((set_last_action s k v).agents m).strategy = (s.agents m).strategy := by
  by_cases h : m = k <;> simp [set_last_action, h]
@[simp]
theorem set_last_action_grudged :
    ((set_last_action s k v).agents m).grudged = (s.agents m).grudged := by
  by_cases h : m = k <;> simp [set_last_action, h]
@[simp]
theorem set_last_action_payoff :
    ((set_last_action s k v).agents m).payoff = (s.agents m).payoff := by
  by_cases h : m = k <;> simp [set_last_action, h]
@[simp]
theorem set_last_action_last_action :
    ((set_last_action s k v).agents m).last_action
      = if m = k then v else (s.agents m).last_action := by
  by_cases h : m = k <;> simp [set_last_action, h]

@[simp]
theorem set_strategy_network : (set_strategy s k v).network = s.network := rfl
@[simp]
theorem set_strategy_coop_count : (set_strategy s k v).coop_count = s.coop_count := rfl
@[simp]
theorem set_strategy_out : (set_strategy s k v).out = s.out := rfl
@[simp]
theorem set_strategy_rand_calls : (set_strategy s k v).rand_calls = s.rand_calls := rfl
@[simp]
theorem set_strategy_grudged :
    ((set_strategy s k v).agents m).grudged = (s.agents m).grudged := by
  by_cases h : m = k <;> simp [set_strategy, h]
@[simp]
theorem set_strategy_last_action :
    ((set_strategy s k v).agents m).last_action = (s.agents m).last_action := by
  by_cases h : m = k <;> simp [set_strategy, h]
@[simp]
theorem set_strategy_payoff :
    ((set_strategy s k v).agents m).payoff = (s.agents m).payoff := by
  by_cases h : m = k <;> simp [set_strategy, h]
@[simp]
theorem set_strategy_strategy :
    ((set_strategy s k v).agents m).strategy = if m = k then v else (s.agents m).strategy := by
  by_cases h : m = k <;> simp [set_strategy, h]

@[simp]
theorem add_payoff_network : (add_payoff s k q).network = s.network := rfl
@[simp]
theorem add_payoff_coop_count : (add_payoff s k q).coop_count = s.coop_count := rfl
@[simp]
theorem add_payoff_out : (add_payoff s k q).out = s.out := rfl
@[simp]
theorem add_payoff_rand_calls : (add_payoff s k q).rand_calls = s.rand_calls := rfl
@[simp]
theorem add_payoff_strategy :
    ((add_payoff s k q).agents m).strategy = (s.agents m).strategy := by
  by_cases h : m = k <;> simp [add_payoff, h]
@[simp]
theorem add_payoff_last_action :
    ((add_payoff s k q).agents m).last_action = (s.agents m).last_action := by
  by_cases h : m = k <;> simp [add_payoff, h]
@[simp]
theorem add_payoff_grudged :
    ((add_payoff s k q).agents m).grudged = (s.agents m).grudged := by
  by_cases h : m = k <;> simp [add_payoff, h]
@[simp]
theorem add_payoff_payoff :
    ((add_payoff s k q).agents m).payoff
      = if m = k then (s.agents m).payoff + q else (s.agents m).payoff := by
  by_cases h : m = k <;> simp [add_payoff, h]

@[simp]
theorem reset_payoff_network : (reset_payoff k s).network = s.network := rfl
@[simp]
theorem reset_payoff_coop_count : (reset_payoff k s).coop_count = s.coop_count := rfl
@[simp]
theorem reset_payoff_out : (reset_payoff k s).out = s.out := rfl
@[simp]
theorem reset_payoff_rand_calls : (reset_payoff k s).rand_calls = s.rand_calls := rfl
@[simp]
theorem reset_payoff_strategy :
    ((reset_payoff k s).agents m).strategy = (s.agents m).strategy := by
  by_cases h : m = k <;> simp [reset_payoff, h]
@[simp]
theorem reset_payoff_last_action :
    ((reset_payoff k s).agents m).last_action = (s.agents m).last_action := by
  by_cases h : m = k <;> simp [reset_payoff, h]
@[simp]
theorem reset_payoff_grudged :
    ((reset_payoff k s).agents m).grudged = (s.agents m).grudged := by
  by_cases h : m = k <;> simp [reset_payoff, h]
@[simp]
theorem reset_payoff_payoff :
    ((reset_payoff k s).agents m).payoff = if m = k then 0 else (s.agents m).payoff := by
  by_cases h : m = k <;> simp [reset_payoff, h]

end fields

/-! ## Payoff application -/

section payoff

variable (s : Sim) (i j m : Nat) (ai aj : Int)

@[simp]
theorem apply_payoff_network : (apply_payoff s i j ai aj).network = s.network := by
  unfold apply_payoff; split_ifs <;> rfl

@[simp]
theorem apply_payoff_coop_count : (apply_payoff s i j ai aj).coop_count = s.coop_count := by
  unfold apply_payoff; split_ifs <;> rfl

@[simp]
theorem apply_payoff_out : (apply_payoff s i j ai aj).out = s.out := by
  unfold apply_payoff; split_ifs <;> rfl

@[simp]
theorem apply_payoff_rand_calls : (apply_payoff s i j ai aj).rand_calls = s.rand_calls := by
  unfold apply_payoff; split_ifs <;> rfl

@[simp]
theorem apply_payoff_strategy :
    ((apply_payoff s i j ai aj).agents m).strategy = (s.agents m).strategy := by
  unfold apply_payoff; split_ifs <;> simp

@[simp]
theorem apply_payoff_last_action :
    ((apply_payoff s i j ai aj).agents m).last_action = (s.agents m).last_action := by
  unfold apply_payoff; split_ifs <;> simp

@[simp]
theorem apply_payoff_grudged :
    ((apply_payoff s i j ai aj).agents m).grudged = (s.agents m).grudged := by
  unfold apply_payoff; split_ifs <;> simp

/-- An agent that is neither `i` nor `j` is left as it was. -/
theorem apply_payoff_other (hi : m ≠ i) (hj : m ≠ j) :
    (apply_payoff s i j ai aj).agents m = s.agents m := by
  unfold apply_payoff add_payoff
  split_ifs <;> simp [Function.update_apply, hi, hj]

end payoff

/-- The branches of `choose_action`, by the strategy of agent `i`. -/
theorem choose_action_branches (s : Sim) (i j : Nat) :
    ((s.agents i).strategy = ALLC → choose_action s i j = 1) ∧
    ((s.agents i).strategy = ALLD → choose_action s i j = 0) ∧
    ((s.agents i).strategy = TFT → choose_action s i j = (s.agents j).last_action) ∧
    ((s.agents i).strategy = GRUD → (s.agents i).grudged ≠ 0 → choose_action s i j = 0) ∧
    ((s.agents i).strategy = GRUD → (s.agents i).grudged = 0 → choose_action s i j = 1) := by
  refine ⟨?_, ?_, ?_, ?_, ?_⟩
  · intro h; simp [choose_action, h]
  · intro h; simp [choose_action, h, ALLC, ALLD]
  · intro h; simp [choose_action, h, ALLC, ALLD, TFT]
  · intro h hg; simp [choose_action, h, hg, ALLC, ALLD, TFT, GRUD]
  · intro h hg; simp [choose_action, h, hg, ALLC, ALLD, TFT, GRUD]

/-! ## Claims on `choose_action` and `apply_payoff` -/

/-- C1: in every state and for every pair of indices `i`, `j` (equal or not),
`choose_action i j` is Cooperate (1) when agent `i` plays AlwaysCooperate,
Defect (0) when it plays AlwaysDefect, agent `j`'s current `last_action` when it
plays TitForTat, and, when it plays Grudger, Defect if agent `i`'s `grudged` flag
is set and Cooperate otherwise.  The function only reads the state: its result is
a value, computed from the state alone, with no state and no draw returned. -/
theorem choose_action_spec (s : Sim) (i j : Nat) :
    ((s.agents i).strategy = ALLC → choose_action s i j = 1) ∧
    ((s.agents i).strategy = ALLD → choose_action s i j = 0) ∧
    ((s.agents i).strategy = TFT → choose_action s i j = (s.agents j).last_action) ∧
    ((s.agents i).strategy = GRUD → (s.agents i).grudged ≠ 0 → choose_action s i j = 0) ∧
    ((s.agents i).strategy = GRUD → (s.agents i).grudged = 0 → choose_action s i j = 1) := by
  refine ⟨?_, ?_, ?_, ?_, ?_⟩
  · intro h; simp [choose_action, h]
  · intro h; simp [choose_action, h, ALLC, ALLD]
  · intro h; simp [choose_action, h, ALLC, ALLD, TFT]
  · intro h hg; simp [choose_action, h, hg, ALLC, ALLD, TFT, GRUD]
  · intro h hg; simp [choose_action, h, hg, ALLC, ALLD, TFT, GRUD]

/-- C1 at the sample state: the TitForTat agent 0 answers agent 1's last
action, Defect. -/
theorem choose_action_spec_witness : choose_action sample 0 1 = 0 :=
  (choose_action_spec sample 0 1).2.2.1 (by decide)

/-- With exact sums: for distinct agents `i ≠ j`, `apply_payoff i j ai aj` adds
to `(payoff[i], payoff[j])` exactly `(3, 3)` when both cooperate, `(0, 5)` when
`i` cooperates and `j` defects, `(5, 0)` when `i` defects and `j` cooperates,
`(1, 1)` when both defect; every other agent is left as it was, no agent's
strategy, last action or grudge flag changes, and the network, the draw
counter, the cooperation counter and the output are untouched. -/
theorem apply_payoff_exact (s : Sim) (i j : Nat) (ai aj : Int) (hij : i ≠ j) :
    (ai = 1 → aj = 1 →
      ((apply_payoff s i j ai aj).agents i).payoff = (s.agents i).payoff + 3 ∧
      ((apply_payoff s i j ai aj).agents j).payoff = (s.agents j).payoff + 3) ∧
    (ai = 1 → aj = 0 →
      ((apply_payoff s i j ai aj).agents i).payoff = (s.agents i).payoff + 0 ∧
      ((apply_payoff s i j ai aj).agents j).payoff = (s.agents j).payoff + 5) ∧
    (ai = 0 → aj = 1 →
      ((apply_payoff s i j ai aj).agents i).payoff = (s.agents i).payoff + 5 ∧
      ((apply_payoff s i j ai aj).agents j).payoff = (s.agents j).payoff + 0) ∧
    (ai = 0 → aj = 0 →
      ((apply_payoff s i j ai aj).agents i).payoff = (s.agents i).payoff + 1 ∧
      ((apply_payoff s i j ai aj).agents j).payoff = (s.agents j).payoff + 1) ∧
    (∀ k, k ≠ i → k ≠ j → (apply_payoff s i j ai aj).agents k = s.agents k) ∧
    (∀ k, ((apply_payoff s i j ai aj).agents k).strategy = (s.agents k).strategy ∧
      ((apply_payoff s i j ai aj).agents k).last_action = (s.agents k).last_action ∧
      ((apply_payoff s i j ai aj).agents k).grudged = (s.agents k).grudged) ∧
    (apply_payoff s i j ai aj).network = s.network ∧
    (apply_payoff s i j ai aj).rand_calls = s.rand_calls ∧
    (apply_payoff s i j ai aj).coop_count = s.coop_count ∧
    (apply_payoff s i j ai aj).out = s.out := by
  have hji : j ≠ i := fun h => hij h.symm
  refine ⟨?_, ?_, ?_, ?_, ?_, ?_, ?_, ?_, ?_, ?_⟩
  · intro h1 h2; subst h1; subst h2
    simp [apply_payoff, hij, hji, R]
  · intro h1 h2; subst h1; subst h2
    simp [apply_payoff, hij, hji, S, T]
  · intro h1 h2; subst h1; subst h2
    simp [apply_payoff, hij, hji, S, T]
  · intro h1 h2; subst h1; subst h2
    simp [apply_payoff, hij, hji, P]
  · intro k hki hkj; exact apply_payoff_other s i j k ai aj hki hkj
  · intro k; simp
  · simp
  · simp
  · simp
  · simp


/-! ## One interaction -/

section interaction

variable (E : Libc) (p_noise : ℚ) (i d m : Nat) (s : Sim)

@[simp]
theorem interaction_network : (interaction E p_noise i d s).network = s.network := by
  simp only [interaction]; split_ifs <;> simp

@[simp]
theorem interaction_out : (interaction E p_noise i d s).out = s.out := by
  simp only [interaction]; split_ifs <;> simp

@[simp]
theorem interaction_rand_calls :
    (interaction E p_noise i d s).rand_calls = s.rand_calls + 2 := by
  simp only [interaction]; split_ifs <;> simp

@[simp]
theorem interaction_strategy :
    ((interaction E p_noise i d s).agents m).strategy = (s.agents m).strategy := by
  simp only [interaction]; split_ifs <;> simp

theorem interaction_coop_count :
    (interaction E p_noise i d s).coop_count
      = s.coop_count + (if noisy_ai E p_noise i d s = 1 then 1 else 0) := by
  simp only [interaction]; split_ifs <;> simp

theorem interaction_grudged :
    ((interaction E p_noise i d s).agents m).grudged
      = if m = i ∧ noisy_aj E p_noise i d s = 0 then 1
        else if m = s.network i d ∧ noisy_ai E p_noise i d s = 0 then 1
        else (s.agents m).grudged := by
  simp only [interaction]; split_ifs <;> simp_all

theorem interaction_last_action :
    ((interaction E p_noise i d s).agents m).last_action
      = if m = s.network i d then noisy_aj E p_noise i d s
        else if m = i then noisy_ai E p_noise i d s
        else (s.agents m).last_action := by
  simp only [interaction]; split_ifs <;> simp_all

end interaction

/-! ## One imitation -/

section imitate

variable (E : Libc) (beta : ℚ) (i m : Nat) (s : Sim)

@[simp]
theorem imitate_network : (imitate E beta i s).network = s.network := by
  simp only [imitate]; split_ifs <;> simp

@[simp]
theorem imitate_out : (imitate E beta i s).out = s.out := by
  simp only [imitate]; split_ifs <;> simp

@[simp]
theorem imitate_coop_count : (imitate E beta i s).coop_count = s.coop_count := by
  simp only [imitate]; split_ifs <;> simp

@[simp]
theorem imitate_rand_calls : (imitate E beta i s).rand_calls = s.rand_calls + 2 := by
  simp only [imitate]; split_ifs <;> simp

@[simp]
theorem imitate_grudged :
    ((imitate E beta i s).agents m).grudged = (s.agents m).grudged := by
  simp only [imitate]; split_ifs <;> simp

@[simp]
theorem imitate_last_action :
    ((imitate E beta i s).agents m).last_action = (s.agents m).last_action := by
  simp only [imitate]; split_ifs <;> simp

@[simp]
theorem imitate_payoff :
    ((imitate E beta i s).agents m).payoff = (s.agents m).payoff := by
  simp only [imitate]; split_ifs <;> simp

/-- After one imitation an agent holds its old strategy, or (agent `i` only) the
strategy of the neighbor in the slot drawn. -/
theorem imitate_strategy :
    ((imitate E beta i s).agents m).strategy = (s.agents m).strategy ∨
    (m = i ∧ ((imitate E beta i s).agents m).strategy
      = (s.agents (s.network i (E.rand_stream s.rand_calls % DEGREE))).strategy) := by
  simp only [imitate]
  split_ifs
  · by_cases h : m = i
    · right; simp [h]
    · left; simp [h]
  · left; simp

end imitate

/-! ## Order of states -/

theorem Later.trans {E : Libc} {p_noise : ℚ} {s s1 s2 : Sim}
    (h1 : Later E p_noise s s1) (h2 : Later E p_noise s1 s2) : Later E p_noise s s2 := by
  induction h2 with
  | refl => exact h1
  | reset t i _ ih => exact Later.reset _ _ i ih
  | clear t _ ih => exact Later.clear _ _ ih
  | interact t i d _ ih => exact Later.interact _ _ i d ih
  | imitation t i _ ih => exact Later.imitation _ _ i ih
  | emit t r _ ih => exact Later.emit _ _ r ih

/-- A loop whose body only moves forward in a run moves forward in the run. -/
theorem later_forLoop (E : Libc) (p_noise : ℚ) (body : Nat → Sim → Sim) (n : Nat)
    (hbody : ∀ i t, Later E p_noise t (body i t)) (s : Sim) :
    Later E p_noise s (forLoop body n s) :=
  forLoop_invariant (fun t => Later E p_noise s t) body n
    (fun i _ t ht => Later.trans ht (hbody i t)) s (Later.refl s)

theorem later_interactions (E : Libc) (p_noise : ℚ) (s : Sim) :
    Later E p_noise s (interactions E p_noise s) :=
  later_forLoop E p_noise _ N_AGENTS
    (fun i t => later_forLoop E p_noise _ DEGREE
      (fun d u => Later.interact u u i d (Later.refl u)) t) s

theorem later_imitation_step (E : Libc) (p_noise : ℚ) (s : Sim) :
    Later E p_noise s (imitation_step E 1 s) :=
  later_forLoop E p_noise _ N_AGENTS (fun i t => Later.imitation t t i (Later.refl t)) s

theorem later_reset (E : Libc) (p_noise : ℚ) (s : Sim) :
    Later E p_noise s (forLoop reset_payoff N_AGENTS s) :=
  later_forLoop E p_noise _ N_AGENTS (fun i t => Later.reset t t i (Later.refl t)) s

/-- Every time step moves the state forward in the run. -/
theorem later_step (E : Libc) (p_noise : ℚ) (t : Nat) (s : Sim) :
    Later E p_noise s (step E p_noise t s) := by
  unfold step
  refine Later.emit _ _ _ ?_
  refine Later.trans ?_ (later_imitation_step E p_noise _)
  refine Later.trans ?_ (later_interactions E p_noise _)
  exact Later.clear _ _ (later_reset E p_noise s)

/-- The state after any number of time steps is later in the run. -/
theorem later_evolve (E : Libc) (p_noise : ℚ) (n : Nat) (s : Sim) :
    Later E p_noise s (evolve E p_noise n s) :=
  later_forLoop E p_noise _ n (fun t u => later_step E p_noise t u) s

/-- A set grudge flag stays set along a run. -/
theorem later_grudged {E : Libc} {p_noise : ℚ} {s s1 : Sim} (h : Later E p_noise s s1)
    (k : Nat) (hg : (s.agents k).grudged ≠ 0) : (s1.agents k).grudged ≠ 0 := by
  induction h with
  | refl => exact hg
  | reset t i _ ih => simpa using ih
  | clear t _ ih => exact ih
  | interact t i d _ ih =>
    rw [interaction_grudged]
    split_ifs
    · decide
    · decide
    · exact ih
  | imitation t i _ ih => simpa using ih
  | emit t r _ ih => exact ih

/-- The function `imitation_step` leaves every grudge flag as it was, whatever
`beta` is. -/
theorem imitation_step_grudged (E : Libc) (beta : ℚ) (s : Sim) (k : Nat) :
    ((imitation_step E beta s).agents k).grudged = (s.agents k).grudged :=
  forLoop_invariant (fun t => (t.agents k).grudged = (s.agents k).grudged) _ N_AGENTS
    (fun i _ t ht => by simpa using ht) s rfl

/-! ## Claims on grudges -/

/-- C3: grudge monotonicity.  If agent `k`'s `grudged` flag is set (non-zero) in
a state, it is set in every later state of the run, for every noise
probability, network and stream of draws; in particular after one interaction,
after `imitation_step`, after the payoff reset loop, after a whole time step and
after any number of time steps. -/
theorem grudge_monotone (E : Libc) (p_noise : ℚ) (s : Sim) (k : Nat)
    (hg : (s.agents k).grudged ≠ 0) :
    (∀ s1, Later E p_noise s s1 → (s1.agents k).grudged ≠ 0) ∧
    (∀ i d, ((interaction E p_noise i d s).agents k).grudged ≠ 0) ∧
    (∀ beta, ((imitation_step E beta s).agents k).grudged ≠ 0) ∧
    (∀ i, ((reset_payoff i s).agents k).grudged ≠ 0) ∧
    ((forLoop reset_payoff N_AGENTS s).agents k).grudged ≠ 0 ∧
    (∀ t, ((step E p_noise t s).agents k).grudged ≠ 0) ∧
    (∀ n, ((evolve E p_noise n s).agents k).grudged ≠ 0) := by
  refine ⟨fun s1 h => later_grudged h k hg, ?_, ?_, ?_, ?_, ?_, ?_⟩
  · intro i d
    exact later_grudged (Later.interact s s i d (Later.refl s)) k hg
  · intro beta
    rw [imitation_step_grudged]; exact hg
  · intro i
    simpa using hg
  · exact later_grudged (later_reset E p_noise s) k hg
  · intro t
    exact later_grudged (later_step E p_noise t s) k hg
  · intro n
    exact later_grudged (later_evolve E p_noise n s) k hg

/-- C3 at the sample state: agent 1 holds a grudge, and still holds it after
500 time steps with noise probability 1/10. -/
theorem grudge_monotone_witness :
    ((evolve sample_libc (1 / 10) 500 sample).agents 1).grudged ≠ 0 :=
  (grudge_monotone sample_libc (1 / 10) sample 1 (by decide)).2.2.2.2.2.2 500

/-- C4: a Grudger that has been defected against never cooperates again via the
Grudger rule.  Take the interaction of agent `i` with its slot `d` in any state
`s`, and an agent `k` against whom the noise-applied action played was Defect
(`k` is the neighbor and `ai` is 0, or `k` is `i` and `aj` is 0).  Then `k`'s
`grudged` flag is set right after the interaction and in every later state
`s1` of the run, and in every such `s1` in which `k` plays Grudger,
`choose_action k m` is Defect for every partner `m`. -/
theorem grudger_never_forgives (E : Libc) (p_noise : ℚ) (s : Sim) (i d k : Nat)
    (hdef : (k = s.network i d ∧ noisy_ai E p_noise i d s = 0) ∨
            (k = i ∧ noisy_aj E p_noise i d s = 0))
    (s1 : Sim) (hlater : Later E p_noise (interaction E p_noise i d s) s1) :
    ((interaction E p_noise i d s).agents k).grudged ≠ 0 ∧
    (s1.agents k).grudged ≠ 0 ∧
    ((s1.agents k).strategy = GRUD → ∀ m, choose_action s1 k m = 0) := by
  have h0 : ((interaction E p_noise i d s).agents k).grudged ≠ 0 := by
    rw [interaction_grudged]
    rcases hdef with ⟨hk, ha⟩ | ⟨hk, ha⟩
    · by_cases h : k = i ∧ noisy_aj E p_noise i d s = 0
      · rw [if_pos h]; decide
      · rw [if_neg h, if_pos ⟨hk, ha⟩]; decide
    · rw [if_pos ⟨hk, ha⟩]; decide
  have h1 : (s1.agents k).grudged ≠ 0 := later_grudged hlater k h0
  refine ⟨h0, h1, ?_⟩
  intro hs m
  simp [choose_action, hs, h1, ALLC, ALLD, TFT, GRUD]

/-- C4 at the sample state, without noise: agent 0 (TitForTat, no grudge yet)
meets its slot-0 neighbor, the grudging Grudger 1, who defects; agent 0's flag
is set by that interaction. -/
theorem grudger_never_forgives_witness :
    ((interaction sample_libc 0 0 0 sample).agents 0).grudged ≠ 0 :=
  (grudger_never_forgives sample_libc 0 sample 0 0 0
    (Or.inr ⟨rfl, by norm_num [noisy_aj, randu, rand, choose_action, sample, sample_libc,
      ALLC, ALLD, TFT, GRUD]⟩)
    _ (Later.refl _)).1

/-! ## The interaction loops and the cooperation counter -/

/-- Loop rule for two nested loops, with an invariant that may mention the
number of inner iterations done so far. -/
theorem nested_forLoop_induction {σ : Type} (Inv : Nat → σ → Prop)
    (body : Nat → Nat → σ → σ) (n w : Nat)
    (hstep : ∀ i d, i < n → d < w → ∀ s, Inv (i * w + d) s → Inv (i * w + d + 1) (body i d s))
    (s : σ) (h0 : Inv 0 s) :
    Inv (n * w) (forLoop (fun i s => forLoop (fun d s => body i d s) w s) n s) := by
  refine forLoop_induction (fun i t => Inv (i * w) t) _ n ?_ s (by simpa using h0)
  intro i hi t ht
  have hin : Inv (i * w + w) (forLoop (fun d s => body i d s) w t) :=
    forLoop_induction (fun d u => Inv (i * w + d) u) _ w
      (fun d hd u hu => hstep i d hi hd u hu) t ht
  have he : (i + 1) * w = i * w + w := Nat.succ_mul i w
  show Inv ((i + 1) * w) _
  rw [he]
  exact hin

/-- A uniform draw is never negative. -/
theorem randu_nonneg (E : Libc) (s : Sim) : 0 ≤ (randu E s).1 := by
  rw [randu_value]
  exact div_nonneg (Nat.cast_nonneg _) (Nat.cast_nonneg _)

/-- Without noise, `ai` is what `choose_action` returned. -/
theorem noisy_ai_zero_noise (E : Libc) (i d : Nat) (s : Sim) :
    noisy_ai E 0 i d s = choose_action s i (s.network i d) := by
  simp only [noisy_ai]
  rw [if_neg (not_lt.mpr (randu_nonneg E s))]

/-- Without noise, `aj` is what `choose_action` returned. -/
theorem noisy_aj_zero_noise (E : Libc) (i d : Nat) (s : Sim) :
    noisy_aj E 0 i d s = choose_action s (s.network i d) i := by
  simp only [noisy_aj]
  rw [if_neg (not_lt.mpr (randu_nonneg E _))]

/-- If a property of states is kept by every interaction of the loops and every
interaction made in a state with the property adds `inc` to the cooperation
counter, the loops keep the property and add `N_AGENTS * DEGREE * inc`. -/
theorem interactions_count (E : Libc) (p_noise : ℚ) (Q : Sim → Prop) (inc : Int)
    (hQ : ∀ i d, i < N_AGENTS → d < DEGREE → ∀ s, Q s →
      Q (interaction E p_noise i d s) ∧
      (interaction E p_noise i d s).coop_count = s.coop_count + inc)
    (s : Sim) (hs : Q s) :
    Q (interactions E p_noise s) ∧
    (interactions E p_noise s).coop_count
      = s.coop_count + ((N_AGENTS * DEGREE : Nat) : Int) * inc := by
  unfold interactions
  refine nested_forLoop_induction
    (fun c t => Q t ∧ t.coop_count = s.coop_count + (c : Int) * inc)
    (fun i d t => interaction E p_noise i d t) N_AGENTS DEGREE ?_ s ⟨hs, by simp⟩
  intro i d hi hd t ht
  obtain ⟨h1, h2⟩ := hQ i d hi hd t ht.1
  refine ⟨h1, ?_⟩
  rw [h2, ht.2]
  push_cast
  ring

/-- A property of states kept by the imitation of every agent is kept by
`imitation_step`. -/
theorem imitation_step_invariant (E : Libc) (beta : ℚ) (Q : Sim → Prop)
    (hQ : ∀ i, i < N_AGENTS → ∀ s, Q s → Q (imitate E beta i s)) (s : Sim) (hs : Q s) :
    Q (imitation_step E beta s) :=
  forLoop_invariant Q _ N_AGENTS hQ s hs

@[simp]
theorem imitation_step_coop_count (E : Libc) (beta : ℚ) (s : Sim) :
    (imitation_step E beta s).coop_count = s.coop_count :=
  forLoop_invariant (fun t => t.coop_count = s.coop_count) _ N_AGENTS
    (fun i _ t ht => by simpa using ht) s rfl

@[simp]
theorem imitation_step_out (E : Libc) (beta : ℚ) (s : Sim) :
    (imitation_step E beta s).out = s.out :=
  forLoop_invariant (fun t => t.out = s.out) _ N_AGENTS
    (fun i _ t ht => by simpa using ht) s rfl

@[simp]
theorem imitation_step_network (E : Libc) (beta : ℚ) (s : Sim) :
    (imitation_step E beta s).network = s.network :=
  forLoop_invariant (fun t => t.network = s.network) _ N_AGENTS
    (fun i _ t ht => by simpa using ht) s rfl

@[simp]
theorem interactions_out (E : Libc) (p_noise : ℚ) (s : Sim) :
    (interactions E p_noise s).out = s.out :=
  forLoop_invariant (fun t => t.out = s.out) _ N_AGENTS
    (fun i _ t ht => forLoop_invariant (fun u => u.out = s.out) _ DEGREE
      (fun d _ u hu => by simpa using hu) t ht) s rfl

@[simp]
theorem interactions_network (E : Libc) (p_noise : ℚ) (s : Sim) :
    (interactions E p_noise s).network = s.network :=
  forLoop_invariant (fun t => t.network = s.network) _ N_AGENTS
    (fun i _ t ht => forLoop_invariant (fun u => u.network = s.network) _ DEGREE
      (fun d _ u hu => by simpa using hu) t ht) s rfl

theorem interactions_strategy (E : Libc) (p_noise : ℚ) (s : Sim) (k : Nat) :
    ((interactions E p_noise s).agents k).strategy = (s.agents k).strategy :=
  forLoop_invariant (fun t => (t.agents k).strategy = (s.agents k).strategy) _ N_AGENTS
    (fun i _ t ht => forLoop_invariant
      (fun u => (u.agents k).strategy = (s.agents k).strategy) _ DEGREE
      (fun d _ u hu => by simpa using hu) t ht) s rfl

@[simp]
theorem reset_loop_out (n : Nat) (s : Sim) : (forLoop reset_payoff n s).out = s.out :=
  forLoop_invariant (fun t => t.out = s.out) _ n (fun i _ t ht => by simpa using ht) s rfl

@[simp]
theorem reset_loop_network (n : Nat) (s : Sim) :
    (forLoop reset_payoff n s).network = s.network :=
  forLoop_invariant (fun t => t.network = s.network) _ n
    (fun i _ t ht => by simpa using ht) s rfl

theorem reset_loop_strategy (n : Nat) (s : Sim) (k : Nat) :
    ((forLoop reset_payoff n s).agents k).strategy = (s.agents k).strategy :=
  forLoop_invariant (fun t => (t.agents k).strategy = (s.agents k).strategy) _ n
    (fun i _ t ht => by simpa using ht) s rfl

/-- The record written by a time step holds the step number and the step's
cooperation counter over `N_AGENTS * DEGREE`. -/
theorem step_out (E : Libc) (p_noise : ℚ) (t : Nat) (s : Sim) :
    (step E p_noise t s).out
      = s.out ++ [(t, ((step E p_noise t s).coop_count : ℚ) / ((N_AGENTS * DEGREE : Nat) : ℚ))] := by
  simp [step]

/-- The cooperation counter after a time step is the one the interaction loops
reach from zero. -/
theorem step_coop_count (E : Libc) (p_noise : ℚ) (t : Nat) (s : Sim) :
    (step E p_noise t s).coop_count
      = (interactions E p_noise
          { forLoop reset_payoff N_AGENTS s with coop_count := 0 }).coop_count := by
  simp [step]

/-! ## Populations with a single strategy -/

/-- One imitation keeps a well-formed network and a single-strategy
population. -/
theorem imitate_keeps_uniform (E : Libc) (beta : ℚ) (v : Int) (i : Nat) (hi : i < N_AGENTS)
    (s : Sim) (hs : network_ok s ∧ all_play v s) :
    network_ok (imitate E beta i s) ∧ all_play v (imitate E beta i s) := by
  obtain ⟨hn, ha⟩ := hs
  refine ⟨?_, ?_⟩
  · intro a d ha1 hd
    rw [imitate_network]
    exact hn a d ha1 hd
  · intro k hk
    rcases imitate_strategy E beta i k s with h | ⟨_, h⟩
    · rw [h]; exact ha k hk
    · rw [h]
      exact ha _ (hn i _ hi (Nat.mod_lt _ (by decide)))

/-- One interaction keeps a well-formed network and a single-strategy
population. -/
theorem interaction_keeps_uniform (E : Libc) (p_noise : ℚ) (v : Int) (i d : Nat)
    (s : Sim) (hs : network_ok s ∧ all_play v s) :
    network_ok (interaction E p_noise i d s) ∧ all_play v (interaction E p_noise i d s) := by
  obtain ⟨hn, ha⟩ := hs
  refine ⟨?_, ?_⟩
  · intro a b ha1 hb
    rw [interaction_network]
    exact hn a b ha1 hb
  · intro k hk
    rw [interaction_strategy]
    exact ha k hk

/-- The state in which the interaction loops of a step start keeps a
well-formed network and a single-strategy population. -/
theorem reset_keeps_uniform (v : Int) (s : Sim) (hs : network_ok s ∧ all_play v s) :
    network_ok { forLoop reset_payoff N_AGENTS s with coop_count := 0 } ∧
    all_play v { forLoop reset_payoff N_AGENTS s with coop_count := 0 } := by
  obtain ⟨hn, ha⟩ := hs
  refine ⟨?_, ?_⟩
  · intro a b ha1 hb
    show (forLoop reset_payoff N_AGENTS s).network a b < N_AGENTS
    rw [reset_loop_network]
    exact hn a b ha1 hb
  · intro k hk
    show ((forLoop reset_payoff N_AGENTS s).agents k).strategy = v
    rw [reset_loop_strategy]
    exact ha k hk

/-- Without noise, in a population where every agent plays a strategy `v` under
which `choose_action` always returns `a`, a time step keeps the network
well-formed and the population on `v`, and ends with the cooperation counter at
`N_AGENTS * DEGREE` times the increment that `a` earns. -/
theorem step_uniform (E : Libc) (v a : Int)
    (hv : ∀ (s : Sim) (i j : Nat), (s.agents i).strategy = v → choose_action s i j = a)
    (t : Nat) (s : Sim) (hs : network_ok s ∧ all_play v s) :
    (network_ok (step E 0 t s) ∧ all_play v (step E 0 t s)) ∧
    (step E 0 t s).coop_count
      = ((N_AGENTS * DEGREE : Nat) : Int) * (if a = 1 then 1 else 0) := by
  have h1 := reset_keeps_uniform v s hs
  have h2 := interactions_count E 0 (fun u => network_ok u ∧ all_play v u)
    (if a = 1 then 1 else 0)
    (fun i d hi _ u hu => by
      refine ⟨interaction_keeps_uniform E 0 v i d u hu, ?_⟩
      rw [interaction_coop_count, noisy_ai_zero_noise, hv u i _ (hu.2 i hi)])
    _ h1
  have h3 := imitation_step_invariant E 1 (fun u => network_ok u ∧ all_play v u)
    (fun i hi u hu => imitate_keeps_uniform E 1 v i hi u hu) _ h2.1
  refine ⟨h3, ?_⟩
  rw [step_coop_count, h2.2]
  simp

/-- If every time step keeps a property of states and, from a state with the
property, ends with the cooperation counter at `c`, then `n` steps keep the
property and write the records `(0, f), ..., (n - 1, f)` with
`f = c / (N_AGENTS * DEGREE)`. -/
theorem evolve_constant_records (E : Libc) (p_noise : ℚ) (Q : Sim → Prop) (c : Int)
    (hQ : ∀ t s, Q s → Q (step E p_noise t s) ∧ (step E p_noise t s).coop_count = c)
    (n : Nat) (s : Sim) (hs : Q s) :
    Q (evolve E p_noise n s) ∧
    (evolve E p_noise n s).out
      = s.out ++ (List.range n).map
          (fun t => (t, (c : ℚ) / ((N_AGENTS * DEGREE : Nat) : ℚ))) := by
  induction n with
  | zero => exact ⟨hs, by simp [evolve, forLoop]⟩
  | succ m ih =>
    obtain ⟨h1, h2⟩ := ih
    have h3 := hQ m _ h1
    refine ⟨h3.1, ?_⟩
    show (step E p_noise m (evolve E p_noise m s)).out = _
    rw [step_out, h3.2, h2, List.range_succ, List.map_append, List.append_assoc]
    rfl

/-! ## Claims on the pure-strategy populations -/

/-- C5: all-cooperator fixed point.  With noise probability 0, a well-formed
network and every agent on AlwaysCooperate at the start, for every stream of
draws the records written by `n` time steps are `(0, 1), ..., (n - 1, 1)`, that
is, every recorded cooperation fraction is exactly 1, and after the `n` steps
every agent still plays AlwaysCooperate. -/
theorem all_cooperate_fixed_point (E : Libc) (s : Sim) (n : Nat)
    (hnet : network_ok s) (hall : all_play ALLC s) :
    (evolve E 0 n s).out = s.out ++ (List.range n).map (fun t => (t, (1 : ℚ))) ∧
    all_play ALLC (evolve E 0 n s) := by
  have h := evolve_constant_records E 0 (fun u => network_ok u ∧ all_play ALLC u)
    ((N_AGENTS * DEGREE : Nat) : Int)
    (fun t u hu => by
      have h1 := step_uniform E ALLC 1
        (fun w i j hw => (choose_action_branches w i j).1 hw) t u hu
      exact ⟨h1.1, by rw [h1.2]; simp⟩)
    n s ⟨hnet, hall⟩
  refine ⟨?_, h.1.2⟩
  rw [h.2]
  simp [N_AGENTS, DEGREE]

/-- C6: all-defector control.  With noise probability 0, a well-formed network
and every agent on AlwaysDefect at the start, for every stream of draws the
records written by `n` time steps are `(0, 0), ..., (n - 1, 0)`: every recorded
cooperation fraction is exactly 0. -/
theorem all_defect_control (E : Libc) (s : Sim) (n : Nat)
    (hnet : network_ok s) (hall : all_play ALLD s) :
    (evolve E 0 n s).out = s.out ++ (List.range n).map (fun t => (t, (0 : ℚ))) := by
  have h := evolve_constant_records E 0 (fun u => network_ok u ∧ all_play ALLD u) 0
    (fun t u hu => by
      have h1 := step_uniform E ALLD 0
        (fun w i j hw => (choose_action_branches w i j).2.1 hw) t u hu
      exact ⟨h1.1, by rw [h1.2]; simp⟩)
    n s ⟨hnet, hall⟩
  rw [h.2]
  simp

/-- C5 on the ring-like sample network with every agent on AlwaysCooperate:
three steps write the fractions 1, 1, 1 and leave everyone on
AlwaysCooperate. -/
theorem all_cooperate_fixed_point_witness :
    (evolve sample_libc 0 3 (uniform_sample ALLC)).out
      = (uniform_sample ALLC).out ++ (List.range 3).map (fun t => (t, (1 : ℚ))) ∧
    all_play ALLC (evolve sample_libc 0 3 (uniform_sample ALLC)) :=
  all_cooperate_fixed_point sample_libc (uniform_sample ALLC) 3
    (fun i d _ _ => Nat.mod_lt (i + d + 1) (by decide)) (fun _ _ => rfl)

/-- C6 on the ring-like sample network with every agent on AlwaysDefect: three
steps write the fractions 0, 0, 0. -/
theorem all_defect_control_witness :
    (evolve sample_libc 0 3 (uniform_sample ALLD)).out
      = (uniform_sample ALLD).out ++ (List.range 3).map (fun t => (t, (0 : ℚ))) :=
  all_defect_control sample_libc (uniform_sample ALLD) 3
    (fun i d _ _ => Nat.mod_lt (i + d + 1) (by decide)) (fun _ _ => rfl)

/-! ## Bounds on the cooperation counter -/

/-- One interaction adds 0 or 1 to the cooperation counter. -/
theorem interaction_coop_count_step (E : Libc) (p_noise : ℚ) (i d : Nat) (s : Sim) :
    s.coop_count ≤ (interaction E p_noise i d s).coop_count ∧
    (interaction E p_noise i d s).coop_count ≤ s.coop_count + 1 := by
  rw [interaction_coop_count]
  split_ifs <;> omega

/-- Started with the counter at 0, the interaction loops end with the counter
between 0 and `N_AGENTS * DEGREE`. -/
theorem interactions_coop_count_bounds (E : Libc) (p_noise : ℚ) (s : Sim)
    (h0 : s.coop_count = 0) :
    0 ≤ (interactions E p_noise s).coop_count ∧
    (interactions E p_noise s).coop_count ≤ ((N_AGENTS * DEGREE : Nat) : Int) := by
  unfold interactions
  refine nested_forLoop_induction
    (fun c t => 0 ≤ t.coop_count ∧ t.coop_count ≤ (c : Int))
    (fun i d t => interaction E p_noise i d t) N_AGENTS DEGREE ?_ s (by simp [h0])
  intro i d _ _ t ht
  have h := interaction_coop_count_step E p_noise i d t
  have h2 : t.coop_count ≤ ((i * DEGREE + d : Nat) : Int) := ht.2
  refine ⟨le_trans ht.1 h.1, ?_⟩
  show (interaction E p_noise i d t).coop_count ≤ ((i * DEGREE + d + 1 : Nat) : Int)
  rw [Nat.cast_succ]
  linarith [h.2]

/-- The cooperation counter after a time step is between 0 and
`N_AGENTS * DEGREE`. -/
theorem step_coop_count_bounds (E : Libc) (p_noise : ℚ) (t : Nat) (s : Sim) :
    0 ≤ (step E p_noise t s).coop_count ∧
    (step E p_noise t s).coop_count ≤ ((N_AGENTS * DEGREE : Nat) : Int) := by
  rw [step_coop_count]
  exact interactions_coop_count_bounds E p_noise _ rfl

/-- Every record written by `n` time steps holds a fraction in `[0, 1]`. -/
theorem evolve_records_bounds (E : Libc) (p_noise : ℚ) (n : Nat) (s : Sim)
    (r : Nat × ℚ) (hr : r ∈ (evolve E p_noise n s).out) :
    r ∈ s.out ∨ (0 ≤ r.2 ∧ r.2 ≤ 1) := by
  induction n with
  | zero => exact Or.inl hr
  | succ m ih =>
    have hr1 : r ∈ (step E p_noise m (evolve E p_noise m s)).out := hr
    rw [step_out, List.mem_append, List.mem_singleton] at hr1
    rcases hr1 with h | h
    · exact ih h
    · right
      have hb := step_coop_count_bounds E p_noise m (evolve E p_noise m s)
      have h1 : (0 : ℚ) ≤ ((step E p_noise m (evolve E p_noise m s)).coop_count : ℚ) := by
        exact_mod_cast hb.1
      have h2 : ((step E p_noise m (evolve E p_noise m s)).coop_count : ℚ)
          ≤ ((N_AGENTS * DEGREE : Nat) : ℚ) := by
        exact_mod_cast hb.2
      have h3 : (0 : ℚ) < ((N_AGENTS * DEGREE : Nat) : ℚ) := by
        norm_num [N_AGENTS, DEGREE]
      rw [h]
      exact ⟨div_nonneg h1 h3.le, (div_le_one h3).mpr h2⟩

/-! ## Initialisation -/

section init

variable (E : Libc) (s : Sim)

theorem init_network_slot_network (i d a b : Nat) :
    (init_network_slot E i d s).network a b
      = if a = i ∧ b = d then E.rand_stream s.rand_calls % N_AGENTS else s.network a b := by
  simp only [init_network_slot, set_network, rand_network, rand_value]
  by_cases ha : a = i
  · by_cases hb : b = d
    · simp [ha, hb]
    · simp [ha, hb]
  · simp [ha]

@[simp]
theorem init_network_slot_agents (i d : Nat) :
    (init_network_slot E i d s).agents = s.agents := rfl

@[simp]
theorem init_network_slot_out (i d : Nat) : (init_network_slot E i d s).out = s.out := rfl

@[simp]
theorem init_network_slot_coop_count (i d : Nat) :
    (init_network_slot E i d s).coop_count = s.coop_count := rfl

@[simp]
theorem init_network_slot_rand_calls (i d : Nat) :
    (init_network_slot E i d s).rand_calls = s.rand_calls + 1 := rfl

/-- What `init_network` does: it makes `N_AGENTS * DEGREE` draws, writes slot
`b` of agent `a` with the draw number `a * DEGREE + b` reduced modulo `N_AGENTS`,
for `a < N_AGENTS` and `b < DEGREE`, and touches nothing else. -/
theorem init_network_effect :
    (init_network E s).agents = s.agents ∧
    (init_network E s).out = s.out ∧
    (init_network E s).coop_count = s.coop_count ∧
    (init_network E s).rand_calls = s.rand_calls + N_AGENTS * DEGREE ∧
    (∀ a b, a < N_AGENTS → b < DEGREE →
      (init_network E s).network a b
        = E.rand_stream (s.rand_calls + (a * DEGREE + b)) % N_AGENTS) ∧
    (∀ a b, ¬ (a < N_AGENTS ∧ b < DEGREE) →
      (init_network E s).network a b = s.network a b) := by
  unfold init_network
  have h := nested_forLoop_induction
    (fun c t => t.agents = s.agents ∧ t.out = s.out ∧ t.coop_count = s.coop_count ∧
      t.rand_calls = s.rand_calls + c ∧
      (∀ a b, b < DEGREE → a * DEGREE + b < c →
        t.network a b = E.rand_stream (s.rand_calls + (a * DEGREE + b)) % N_AGENTS) ∧
      (∀ a b, ¬ (a < N_AGENTS ∧ b < DEGREE) → t.network a b = s.network a b))
    (init_network_slot E) N_AGENTS DEGREE
    (by
      intro i d hi hd t ht
      obtain ⟨h1, h2, h3, h4, h5, h6⟩ := ht
      refine ⟨by simp [h1], by simp [h2], by simp [h3], by simp [h4]; omega, ?_, ?_⟩
      · intro a b hb hab
        rw [init_network_slot_network]
        by_cases hc : a = i ∧ b = d
        · rw [if_pos hc, h4, hc.1, hc.2]
        · rw [if_neg hc]
          refine h5 a b hb ?_
          simp only [DEGREE] at hb hd hab ⊢
          omega
      · intro a b hab
        rw [init_network_slot_network]
        have hc : ¬ (a = i ∧ b = d) := fun hc => hab ⟨hc.1 ▸ hi, hc.2 ▸ hd⟩
        rw [if_neg hc]
        exact h6 a b hab)
    s ⟨rfl, rfl, rfl, rfl, fun a b _ hab => absurd hab (Nat.not_lt_zero _), fun _ _ _ => rfl⟩
  obtain ⟨h1, h2, h3, h4, h5, h6⟩ := h
  refine ⟨h1, h2, h3, h4, ?_, ?_⟩
  · intro a b ha hb
    refine h5 a b hb ?_
    simp only [N_AGENTS, DEGREE] at ha hb ⊢
    omega
  · intro a b hab
    exact h6 a b hab

/-- After `init_network` the network is well-formed. -/
theorem init_network_ok : network_ok (init_network E s) := by
  intro a b ha hb
  rw [(init_network_effect E s).2.2.2.2.1 a b ha hb]
  exact Nat.mod_lt _ (by decide)

@[simp]
theorem init_agent_network (i : Nat) : (init_agent E i s).network = s.network := rfl

@[simp]
theorem init_agent_out (i : Nat) : (init_agent E i s).out = s.out := rfl

@[simp]
theorem init_agent_coop_count (i : Nat) : (init_agent E i s).coop_count = s.coop_count := rfl

@[simp]
theorem init_agent_rand_calls (i : Nat) :
    (init_agent E i s).rand_calls = s.rand_calls + 1 := rfl

theorem init_agent_agents (i k : Nat) :
    (init_agent E i s).agents k
      = if k = i then
          { strategy := ((E.rand_stream s.rand_calls % 4 : Nat) : Int),
            last_action := 1, grudged := 0, payoff := 0 }
        else s.agents k := by
  simp only [init_agent, rand_agents, rand_value, Function.update_apply]

/-- What `init_agents` does: it makes `N_AGENTS` draws, gives agent `k` the
strategy `draw k % 4`, last action Cooperate, no grudge and payoff 0, for
`k < N_AGENTS`, and touches nothing else. -/
theorem init_agents_effect :
    (init_agents E s).network = s.network ∧
    (init_agents E s).out = s.out ∧
    (init_agents E s).coop_count = s.coop_count ∧
    (init_agents E s).rand_calls = s.rand_calls + N_AGENTS ∧
    (∀ k, k < N_AGENTS →
      (init_agents E s).agents k
        = { strategy := ((E.rand_stream (s.rand_calls + k) % 4 : Nat) : Int),
            last_action := 1, grudged := 0, payoff := 0 }) ∧
    (∀ k, ¬ k < N_AGENTS → (init_agents E s).agents k = s.agents k) := by
  unfold init_agents
  refine forLoop_induction
    (fun c t => t.network = s.network ∧ t.out = s.out ∧ t.coop_count = s.coop_count ∧
      t.rand_calls = s.rand_calls + c ∧
      (∀ k, k < c →
        t.agents k
          = { strategy := ((E.rand_stream (s.rand_calls + k) % 4 : Nat) : Int),
              last_action := 1, grudged := 0, payoff := 0 }) ∧
      (∀ k, ¬ k < c → t.agents k = s.agents k))
    (init_agent E) N_AGENTS ?_ s
    ⟨rfl, rfl, rfl, rfl, fun k hk => absurd hk (Nat.not_lt_zero _), fun _ _ => rfl⟩
  intro i _ t ht
  obtain ⟨h1, h2, h3, h4, h5, h6⟩ := ht
  refine ⟨by simp [h1], by simp [h2], by simp [h3], by simp [h4]; omega, ?_, ?_⟩
  · intro k hk
    rw [init_agent_agents]
    by_cases hc : k = i
    · rw [if_pos hc, h4, hc]
    · rw [if_neg hc]
      exact h5 k (by omega)
  · intro k hk
    rw [init_agent_agents]
    have hc : ¬ k = i := by omega
    rw [if_neg hc]
    exact h6 k (by omega)

/-- After `init_network(); init_agents();` the network is well-formed. -/
theorem init_network_ok_after_init : network_ok (init E) := by
  unfold init
  intro a b ha hb
  rw [(init_agents_effect E _).1]
  exact init_network_ok E start a b ha hb

/-- After `init_network(); init_agents();` nothing has been written. -/
theorem init_out : (init E).out = [] := by
  unfold init
  rw [(init_agents_effect E _).2.1, (init_network_effect E _).2.1]
  rfl

/-- After `init_agents` every agent holds one of the four strategies. -/
theorem init_agents_strategy_ok : strategy_ok (init_agents E s) := by
  intro k hk
  rw [(init_agents_effect E s).2.2.2.2.1 k hk]
  show ((E.rand_stream (s.rand_calls + k) % 4 : Nat) : Int) = ALLC ∨ _
  have h : E.rand_stream (s.rand_calls + k) % 4 < 4 := Nat.mod_lt _ (by decide)
  simp only [ALLC, ALLD, TFT, GRUD]
  omega

end init

/-! ## What a run preserves -/

/-- The network is the same in every later state of a run. -/
theorem later_network {E : Libc} {p_noise : ℚ} {s s1 : Sim} (h : Later E p_noise s s1) :
    s1.network = s.network := by
  induction h with
  | refl => rfl
  | reset t i _ ih => simpa using ih
  | clear t _ ih => exact ih
  | interact t i d _ ih => simpa using ih
  | imitation t i _ ih => simpa using ih
  | emit t r _ ih => exact ih

/-- A time step keeps a well-formed network and keeps every agent's strategy
inside any set `V` of values that held all the strategies before the step. -/
theorem step_keeps_strategies (E : Libc) (p_noise : ℚ) (V : Int → Prop) (t : Nat) (s : Sim)
    (hs : network_ok s ∧ ∀ k, k < N_AGENTS → V (s.agents k).strategy) :
    network_ok (step E p_noise t s) ∧
    ∀ k, k < N_AGENTS → V ((step E p_noise t s).agents k).strategy := by
  obtain ⟨hn, hV⟩ := hs
  have h := imitation_step_invariant E 1
    (fun u => network_ok u ∧ ∀ k, k < N_AGENTS → V (u.agents k).strategy)
    (fun i hi u hu => by
      refine ⟨fun a b ha hb => by rw [imitate_network]; exact hu.1 a b ha hb, ?_⟩
      intro k hk
      rcases imitate_strategy E 1 i k u with h | ⟨_, h⟩
      · rw [h]; exact hu.2 k hk
      · rw [h]
        exact hu.2 _ (hu.1 i _ hi (Nat.mod_lt _ (by decide))))
    (interactions E p_noise { forLoop reset_payoff N_AGENTS s with coop_count := 0 })
    ⟨fun a b ha hb => by
        rw [interactions_network]
        show (forLoop reset_payoff N_AGENTS s).network a b < N_AGENTS
        rw [reset_loop_network]
        exact hn a b ha hb,
     fun k hk => by
        rw [interactions_strategy]
        show V ((forLoop reset_payoff N_AGENTS s).agents k).strategy
        rw [reset_loop_strategy]
        exact hV k hk⟩
  exact h

/-- Any number of time steps keeps a well-formed network and keeps every
agent's strategy inside any set `V` of values that held all the strategies at
the start. -/
theorem evolve_keeps_strategies (E : Libc) (p_noise : ℚ) (V : Int → Prop) (n : Nat) (s : Sim)
    (hs : network_ok s ∧ ∀ k, k < N_AGENTS → V (s.agents k).strategy) :
    network_ok (evolve E p_noise n s) ∧
    ∀ k, k < N_AGENTS → V ((evolve E p_noise n s).agents k).strategy :=
  forLoop_invariant (fun u => network_ok u ∧ ∀ k, k < N_AGENTS → V (u.agents k).strategy)
    (step E p_noise) n (fun t _ u hu => step_keeps_strategies E p_noise V t u hu) s hs

/-- In every state a run reaches after initialisation, the network is
well-formed and every agent holds one of the four strategies. -/
theorem evolve_init_ok (E : Libc) (p_noise : ℚ) (n : Nat) :
    network_ok (evolve E p_noise n (init E)) ∧ strategy_ok (evolve E p_noise n (init E)) :=
  evolve_keeps_strategies E p_noise
    (fun v => v = ALLC ∨ v = ALLD ∨ v = TFT ∨ v = GRUD) n (init E)
    ⟨init_network_ok_after_init E, init_agents_strategy_ok E (init_network E start)⟩

/-! ## The final strategy count -/

/-- When every agent holds one of the four strategies, the counting loop
leaves four non-negative counts that sum to `N_AGENTS`. -/
theorem final_count_sum (s : Sim) (hs : strategy_ok s) :
    0 ≤ final_count s ALLC ∧ 0 ≤ final_count s ALLD ∧ 0 ≤ final_count s TFT ∧
    0 ≤ final_count s GRUD ∧
    final_count s ALLC + final_count s ALLD + final_count s TFT + final_count s GRUD
      = (N_AGENTS : Int) := by
  unfold final_count
  refine forLoop_induction
    (fun c (count : Int → Int) => 0 ≤ count ALLC ∧ 0 ≤ count ALLD ∧ 0 ≤ count TFT ∧
      0 ≤ count GRUD ∧ count ALLC + count ALLD + count TFT + count GRUD = (c : Int))
    _ N_AGENTS ?_ (fun _ => 0) (by simp)
  intro i hi count hc
  obtain ⟨h1, h2, h3, h4, h5⟩ := hc
  have hk := hs i hi
  simp only [ALLC, ALLD, TFT, GRUD] at h1 h2 h3 h4 h5 hk ⊢
  rcases hk with hk | hk | hk | hk <;>
    · rw [hk]
      simp only [Function.update_apply]
      norm_num
      refine ⟨?_, ?_, ?_, ?_, ?_⟩ <;> omega

/-! ## Claims on counters, fractions, strategies and the network -/

/-- C7: cooperation fraction bounds.  For every noise probability, network,
state and stream of draws, the cooperation counter at the end of a time step is
between 0 and `N_AGENTS * DEGREE`, which is 400; every record written by any
number of steps holds a fraction in `[0, 1]`, and so does every per-step record
of a whole run. -/
theorem cooperation_fraction_bounds (E : Libc) (p_noise : ℚ) :
    (N_AGENTS * DEGREE = 400) ∧
    (∀ t s, 0 ≤ (step E p_noise t s).coop_count ∧ (step E p_noise t s).coop_count ≤ 400) ∧
    (∀ n s r, r ∈ (evolve E p_noise n s).out → r ∈ s.out ∨ (0 ≤ r.2 ∧ r.2 ≤ 1)) ∧
    (∀ r, r ∈ (main E p_noise).records → 0 ≤ r.2 ∧ r.2 ≤ 1) := by
  refine ⟨rfl, ?_, ?_, ?_⟩
  · intro t s
    have h := step_coop_count_bounds E p_noise t s
    have h400 : ((N_AGENTS * DEGREE : Nat) : Int) = 400 := rfl
    rw [h400] at h
    exact h
  · intro n s r hr
    exact evolve_records_bounds E p_noise n s r hr
  · intro r hr
    rcases evolve_records_bounds E p_noise N_STEPS (init E) r hr with h | h
    · rw [init_out] at h
      exact absurd h (List.not_mem_nil r)
    · exact h

/-- C8: final fractions.  At the end of every run the four strategy counts, in
the order ALLC, ALLD, TFT, GRUD, are each between 0 and 100 and sum to exactly
100 (`N_AGENTS`); the four fractions written, count over `N_AGENTS`, are each in
`[0, 1]` and sum to 1. -/
theorem final_fractions_spec (E : Libc) (p_noise : ℚ) :
    (0 ≤ final_count (evolve E p_noise N_STEPS (init E)) ALLC ∧
      final_count (evolve E p_noise N_STEPS (init E)) ALLC ≤ 100) ∧
    (0 ≤ final_count (evolve E p_noise N_STEPS (init E)) ALLD ∧
      final_count (evolve E p_noise N_STEPS (init E)) ALLD ≤ 100) ∧
    (0 ≤ final_count (evolve E p_noise N_STEPS (init E)) TFT ∧
      final_count (evolve E p_noise N_STEPS (init E)) TFT ≤ 100) ∧
    (0 ≤ final_count (evolve E p_noise N_STEPS (init E)) GRUD ∧
      final_count (evolve E p_noise N_STEPS (init E)) GRUD ≤ 100) ∧
    final_count (evolve E p_noise N_STEPS (init E)) ALLC
      + final_count (evolve E p_noise N_STEPS (init E)) ALLD
      + final_count (evolve E p_noise N_STEPS (init E)) TFT
      + final_count (evolve E p_noise N_STEPS (init E)) GRUD = 100 ∧
    (0 ≤ (main E p_noise).final.1 ∧ (main E p_noise).final.1 ≤ 1) ∧
    (0 ≤ (main E p_noise).final.2.1 ∧ (main E p_noise).final.2.1 ≤ 1) ∧
    (0 ≤ (main E p_noise).final.2.2.1 ∧ (main E p_noise).final.2.2.1 ≤ 1) ∧
    (0 ≤ (main E p_noise).final.2.2.2 ∧ (main E p_noise).final.2.2.2 ≤ 1) ∧
    (main E p_noise).final.1 + (main E p_noise).final.2.1 + (main E p_noise).final.2.2.1
      + (main E p_noise).final.2.2.2 = 1 := by
  obtain ⟨h1, h2, h3, h4, h5⟩ :=
    final_count_sum (evolve E p_noise N_STEPS (init E)) (evolve_init_ok E p_noise N_STEPS).2
  have hN : (N_AGENTS : Int) = 100 := rfl
  rw [hN] at h5
  have hQ : ((N_AGENTS : Nat) : ℚ) = 100 := by norm_num [N_AGENTS]
  have q1 : (0 : ℚ) ≤ (final_count (evolve E p_noise N_STEPS (init E)) ALLC : ℚ) := by
    exact_mod_cast h1
  have q2 : (0 : ℚ) ≤ (final_count (evolve E p_noise N_STEPS (init E)) ALLD : ℚ) := by
    exact_mod_cast h2
  have q3 : (0 : ℚ) ≤ (final_count (evolve E p_noise N_STEPS (init E)) TFT : ℚ) := by
    exact_mod_cast h3
  have q4 : (0 : ℚ) ≤ (final_count (evolve E p_noise N_STEPS (init E)) GRUD : ℚ) := by
    exact_mod_cast h4
  have q5 : (final_count (evolve E p_noise N_STEPS (init E)) ALLC : ℚ)
      + (final_count (evolve E p_noise N_STEPS (init E)) ALLD : ℚ)
      + (final_count (evolve E p_noise N_STEPS (init E)) TFT : ℚ)
      + (final_count (evolve E p_noise N_STEPS (init E)) GRUD : ℚ) = 100 := by
    exact_mod_cast h5
  simp only [main, final_fractions, hQ]
  refine ⟨⟨h1, by omega⟩, ⟨h2, by omega⟩, ⟨h3, by omega⟩, ⟨h4, by omega⟩, h5,
    ⟨by positivity, ?_⟩, ⟨by positivity, ?_⟩, ⟨by positivity, ?_⟩, ⟨by positivity, ?_⟩, ?_⟩
  · rw [div_le_one (by norm_num)]; linarith
  · rw [div_le_one (by norm_num)]; linarith
  · rw [div_le_one (by norm_num)]; linarith
  · rw [div_le_one (by norm_num)]; linarith
  · rw [← add_div, ← add_div, ← add_div, q5]; norm_num

/-- C9: strategy validity.  For every stream of draws and every noise
probability, right after `init_agents` (from any state), and after
initialisation followed by any number of time steps, every agent's strategy is
one of ALLC = 0, ALLD = 1, TFT = 2, GRUD = 3. -/
theorem strategy_valid (E : Libc) (p_noise : ℚ) :
    (ALLC = 0 ∧ ALLD = 1 ∧ TFT = 2 ∧ GRUD = 3) ∧
    (∀ s, strategy_ok (init_agents E s)) ∧
    (∀ n k, k < N_AGENTS →
      ((evolve E p_noise n (init E)).agents k).strategy = 0 ∨
      ((evolve E p_noise n (init E)).agents k).strategy = 1 ∨
      ((evolve E p_noise n (init E)).agents k).strategy = 2 ∨
      ((evolve E p_noise n (init E)).agents k).strategy = 3) := by
  refine ⟨⟨rfl, rfl, rfl, rfl⟩, fun s => init_agents_strategy_ok E s, ?_⟩
  intro n k hk
  exact (evolve_init_ok E p_noise n).2 k hk

/-- C10: network well-formedness.  For every stream of draws, after
`init_network` (from any state) every entry `network[i][d]` with
`i < N_AGENTS` and `d < DEGREE` (`DEGREE` is 4) lies in `[0, N_AGENTS)`, and
`init_network` writes those `DEGREE` slots per agent and no other entry; the
network is not modified by `init_agents`, by an interaction, by
`imitation_step`, by the payoff reset, by a time step, nor by any number of time
steps, so it is still well-formed in every state of a run. -/
theorem network_well_formed (E : Libc) (s : Sim) :
    DEGREE = 4 ∧
    (∀ i d, i < N_AGENTS → d < DEGREE → (init_network E s).network i d < N_AGENTS) ∧
    (∀ i d, ¬ (i < N_AGENTS ∧ d < DEGREE) →
      (init_network E s).network i d = s.network i d) ∧
    (init_agents E s).network = s.network ∧
    (∀ p_noise i d, (interaction E p_noise i d s).network = s.network) ∧
    (∀ beta, (imitation_step E beta s).network = s.network) ∧
    (forLoop reset_payoff N_AGENTS s).network = s.network ∧
    (∀ p_noise t, (step E p_noise t s).network = s.network) ∧
    (∀ p_noise n, (evolve E p_noise n s).network = s.network) ∧
    (∀ p_noise n i d, i < N_AGENTS → d < DEGREE →
      (evolve E p_noise n (init E)).network i d < N_AGENTS) := by
  refine ⟨rfl, init_network_ok E s, (init_network_effect E s).2.2.2.2.2,
    (init_agents_effect E s).1, ?_, ?_, ?_, ?_, ?_, ?_⟩
  · intro p_noise i d; simp
  · intro beta; simp
  · simp
  · intro p_noise t; exact later_network (later_step E p_noise t s)
  · intro p_noise n; exact later_network (later_evolve E p_noise n s)
  · intro p_noise n i d hi hd; exact (evolve_init_ok E p_noise n).1 i d hi hd

/-! ## Draw counts of the loops -/

@[simp]
theorem reset_loop_rand_calls (n : Nat) (s : Sim) :
    (forLoop reset_payoff n s).rand_calls = s.rand_calls :=
  forLoop_invariant (fun t => t.rand_calls = s.rand_calls) _ n
    (fun i _ t ht => by simpa using ht) s rfl

/-- The reset loop over the first `n` agents leaves each of them with payoff
0. -/
theorem reset_loop_payoff (n : Nat) (s : Sim) (k : Nat) (hk : k < n) :
    ((forLoop reset_payoff n s).agents k).payoff = 0 := by
  have h := forLoop_induction
    (fun c t => ∀ m, m < c → (t.agents m).payoff = 0) reset_payoff n
    (fun i _ t ht m hm => by
      rw [reset_payoff_payoff]
      by_cases hmi : m = i
      · rw [if_pos hmi]
      · rw [if_neg hmi]
        exact ht m (by omega))
    s (fun m hm => absurd hm (Nat.not_lt_zero m))
  exact h k hk

/-- The interaction loops make two draws per interaction. -/
theorem interactions_rand_calls (E : Libc) (p_noise : ℚ) (s : Sim) :
    (interactions E p_noise s).rand_calls = s.rand_calls + 2 * (N_AGENTS * DEGREE) := by
  unfold interactions
  refine nested_forLoop_induction
    (fun c t => t.rand_calls = s.rand_calls + 2 * c)
    (interaction E p_noise) N_AGENTS DEGREE ?_ s rfl
  intro i d _ _ t ht
  rw [interaction_rand_calls, ht]
  omega

/-- The function `imitation_step` makes two draws per agent. -/
theorem imitation_step_rand_calls (E : Libc) (beta : ℚ) (s : Sim) :
    (imitation_step E beta s).rand_calls = s.rand_calls + 2 * N_AGENTS := by
  unfold imitation_step
  refine forLoop_induction (fun c t => t.rand_calls = s.rand_calls + 2 * c)
    (imitate E beta) N_AGENTS ?_ s rfl
  intro i _ t ht
  rw [imitate_rand_calls, ht]
  omega

/-- A time step makes the draws of its interaction loops and then those of
`imitation_step`. -/
theorem step_rand_calls (E : Libc) (p_noise : ℚ) (t : Nat) (s : Sim) :
    (step E p_noise t s).rand_calls
      = s.rand_calls + 2 * (N_AGENTS * DEGREE) + 2 * N_AGENTS := by
  have h : (step E p_noise t s).rand_calls
      = (imitation_step E 1 (interactions E p_noise
          { forLoop reset_payoff N_AGENTS s with coop_count := 0 })).rand_calls := rfl
  rw [h, imitation_step_rand_calls, interactions_rand_calls]
  show (forLoop reset_payoff N_AGENTS s).rand_calls + _ + _ = _
  rw [reset_loop_rand_calls]

/-! ## Claims on the payoff reset and the random source -/

/-- C11: payoff reset.  In a time step started in any state `s` (whatever
payoffs the previous step left), after the reset pass every agent's payoff is
exactly 0, it is still 0 in the state in which the interaction loops start (the
cooperation counter cleared), and the step is the interaction loops, the
imitation and the record, run from exactly that state. -/
theorem payoff_reset (E : Libc) (p_noise : ℚ) (t : Nat) (s : Sim) :
    (∀ k, k < N_AGENTS → ((forLoop reset_payoff N_AGENTS s).agents k).payoff = 0) ∧
    (∀ k, k < N_AGENTS →
      (({ forLoop reset_payoff N_AGENTS s with coop_count := 0 } : Sim).agents k).payoff = 0) ∧
    step E p_noise t s
      = { imitation_step E 1 (interactions E p_noise
            { forLoop reset_payoff N_AGENTS s with coop_count := 0 }) with
          out := (imitation_step E 1 (interactions E p_noise
            { forLoop reset_payoff N_AGENTS s with coop_count := 0 })).out ++
            [(t, ((imitation_step E 1 (interactions E p_noise
              { forLoop reset_payoff N_AGENTS s with coop_count := 0 })).coop_count : ℚ)
                / ((N_AGENTS * DEGREE : Nat) : ℚ))] } := by
  refine ⟨fun k hk => reset_loop_payoff N_AGENTS s k hk, ?_, rfl⟩
  intro k hk
  show ((forLoop reset_payoff N_AGENTS s).agents k).payoff = 0
  exact reset_loop_payoff N_AGENTS s k hk

/-- C12 fails at the largest draw: when `rand()` returns `RAND_MAX` (here
32767, draw number 7982 of the sample stream), `randu` returns exactly 1, which
is not below 1. -/
theorem randu_reaches_one :
    sample_libc.rand_stream before_largest_draw.rand_calls = sample_libc.RAND_MAX ∧
    (randu sample_libc before_largest_draw).1 = 1 ∧
    ¬ (randu sample_libc before_largest_draw).1 < 1 := by
  have h : (randu sample_libc before_largest_draw).1 = 1 := by
    norm_num [randu, rand, sample_libc, before_largest_draw, start]
  refine ⟨by decide, h, ?_⟩
  rw [h]
  exact lt_irrefl 1

/-- C13: fixed draw consumption.  One interaction makes exactly two draws, the
first deciding the flip of `ai` and the second the flip of `aj`; one imitation
makes exactly two draws, the first reduced modulo `DEGREE` to pick the neighbor
slot and the second used in the accept test.  So the interaction loops make
`2 * N_AGENTS * DEGREE` = 800 draws, `imitation_step` after them makes
`2 * N_AGENTS` = 200 draws, and a time step makes 1000 draws, for every noise
probability (0 included) and every state. -/
theorem draws_per_step (E : Libc) (p_noise : ℚ) (s : Sim) :
    (∀ i d, (interaction E p_noise i d s).rand_calls = s.rand_calls + 2 ∧
      noisy_ai E p_noise i d s
        = (if (E.rand_stream s.rand_calls : ℚ) / (E.RAND_MAX : ℚ) < p_noise
            then 1 - choose_action s i (s.network i d)
            else choose_action s i (s.network i d)) ∧
      noisy_aj E p_noise i d s
        = (if (E.rand_stream (s.rand_calls + 1) : ℚ) / (E.RAND_MAX : ℚ) < p_noise
            then 1 - choose_action s (s.network i d) i
            else choose_action s (s.network i d) i)) ∧
    (∀ beta i, (imitate E beta i s).rand_calls = s.rand_calls + 2 ∧
      imitate E beta i s
        = (if (E.rand_stream (s.rand_calls + 1) : ℚ) / (E.RAND_MAX : ℚ)
              < fermi_prob E.exp beta (s.agents i).payoff
                  (s.agents (s.network i (E.rand_stream s.rand_calls % DEGREE))).payoff
            then set_strategy { s with rand_calls := s.rand_calls + 1 + 1 } i
              (s.agents (s.network i (E.rand_stream s.rand_calls % DEGREE))).strategy
            else { s with rand_calls := s.rand_calls + 1 + 1 })) ∧
    (interactions E p_noise s).rand_calls = s.rand_calls + 800 ∧
    (∀ beta, (imitation_step E beta s).rand_calls = s.rand_calls + 200) ∧
    (forLoop reset_payoff N_AGENTS s).rand_calls = s.rand_calls ∧
    (∀ t, (interactions E p_noise
        { forLoop reset_payoff N_AGENTS s with coop_count := 0 }).rand_calls
          = s.rand_calls + 800 ∧
      (step E p_noise t s).rand_calls = s.rand_calls + 1000) ∧
    (∀ n, (evolve E p_noise n s).rand_calls = s.rand_calls + 1000 * n) := by
  refine ⟨?_, ?_, ?_, ?_, ?_, ?_, ?_⟩
  · intro i d
    exact ⟨interaction_rand_calls E p_noise i d s, rfl, rfl⟩
  · intro beta i
    exact ⟨imitate_rand_calls E beta i s, rfl⟩
  · rw [interactions_rand_calls]; rfl
  · intro beta
    rw [imitation_step_rand_calls]; rfl
  · exact reset_loop_rand_calls N_AGENTS s
  · intro t
    refine ⟨?_, ?_⟩
    · rw [interactions_rand_calls]
      show (forLoop reset_payoff N_AGENTS s).rand_calls + _ = _
      rw [reset_loop_rand_calls]; rfl
    · rw [step_rand_calls]; rfl
  · intro n
    induction n with
    | zero => rfl
    | succ m ih =>
      show (step E p_noise m (evolve E p_noise m s)).rand_calls = _
      rw [step_rand_calls, ih]
      simp only [N_AGENTS, DEGREE]
      omega

/-! ## Records, symmetry of payoffs, imitation, the Fermi rule -/

/-- Two states with the same fields are the same state. -/
theorem sim_ext (s t : Sim) (h1 : s.agents = t.agents) (h2 : s.network = t.network)
    (h3 : s.rand_calls = t.rand_calls) (h4 : s.coop_count = t.coop_count)
    (h5 : s.out = t.out) : s = t := by
  cases s
  cases t
  simp_all

/-- Two payoff additions can be made in either order. -/
theorem add_payoff_comm (s : Sim) (i j : Nat) (a b : ℚ) :
    add_payoff (add_payoff s i a) j b = add_payoff (add_payoff s j b) i a := by
  refine sim_ext _ _ ?_ rfl rfl rfl rfl
  funext k
  have hag : ∀ x y : Agent, x.strategy = y.strategy → x.last_action = y.last_action →
      x.grudged = y.grudged → x.payoff = y.payoff → x = y := by
    intro x y e1 e2 e3 e4
    cases x
    cases y
    simp_all
  refine hag _ _ (by simp) (by simp) (by simp) ?_
  rw [add_payoff_payoff, add_payoff_payoff, add_payoff_payoff, add_payoff_payoff]
  by_cases hi : k = i
  · by_cases hj : k = j
    · simp only [if_pos hi, if_pos hj]
      ring
    · simp only [if_pos hi, if_neg hj]
  · by_cases hj : k = j
    · simp only [if_neg hi, if_pos hj]
    · simp only [if_neg hi, if_neg hj]

/-- The times of the records written by `n` time steps are `0, ..., n - 1`, in
that order. -/
theorem evolve_out_times (E : Libc) (p_noise : ℚ) (n : Nat) (s : Sim) :
    (evolve E p_noise n s).out.map Prod.fst = s.out.map Prod.fst ++ List.range n := by
  induction n with
  | zero => simp [evolve, forLoop]
  | succ m ih =>
    show (step E p_noise m (evolve E p_noise m s)).out.map Prod.fst = _
    rw [step_out, List.map_append, ih, List.range_succ, List.append_assoc]
    rfl

/-- One imitation keeps a well-formed network and keeps every agent's strategy
inside any set `V` of values that held all the strategies before it. -/
theorem imitate_keeps_strategies (E : Libc) (beta : ℚ) (V : Int → Prop) (i : Nat)
    (hi : i < N_AGENTS) (s : Sim)
    (hs : network_ok s ∧ ∀ k, k < N_AGENTS → V (s.agents k).strategy) :
    network_ok (imitate E beta i s) ∧
    ∀ k, k < N_AGENTS → V ((imitate E beta i s).agents k).strategy := by
  refine ⟨fun a b ha hb => by rw [imitate_network]; exact hs.1 a b ha hb, ?_⟩
  intro k hk
  rcases imitate_strategy E beta i k s with h | ⟨_, h⟩
  · rw [h]; exact hs.2 k hk
  · rw [h]
    exact hs.2 _ (hs.1 i _ hi (Nat.mod_lt _ (by decide)))

/-- The function `imitation_step` keeps a well-formed network and keeps every
agent's strategy inside any set `V` of values that held all the strategies
before it. -/
theorem imitation_step_keeps_strategies (E : Libc) (beta : ℚ) (V : Int → Prop) (s : Sim)
    (hs : network_ok s ∧ ∀ k, k < N_AGENTS → V (s.agents k).strategy) :
    network_ok (imitation_step E beta s) ∧
    ∀ k, k < N_AGENTS → V ((imitation_step E beta s).agents k).strategy :=
  imitation_step_invariant E beta
    (fun u => network_ok u ∧ ∀ k, k < N_AGENTS → V (u.agents k).strategy)
    (fun i hi u hu => imitate_keeps_strategies E beta V i hi u hu) s hs

/-! ## Claims on records, symmetry, imitation and the Fermi rule -/

/-- C15: for every noise probability and stream of draws, a run writes exactly
`N_STEPS` = 500 per-step records, the record at position `t` has time field
`t`, so the time fields are 0, 1, ..., 499 in increasing order, the first being
0 and the last 499; the output holds, after them, one final record of four
fractions. -/
theorem records_spec (E : Libc) (p_noise : ℚ) :
    N_STEPS = 500 ∧
    (main E p_noise).records.length = 500 ∧
    (main E p_noise).records.map Prod.fst = List.range 500 ∧
    (∀ t, t < 500 → ((main E p_noise).records.map Prod.fst)[t]? = some t) ∧
    ((main E p_noise).records.map Prod.fst)[0]? = some 0 ∧
    ((main E p_noise).records.map Prod.fst)[499]? = some 499 ∧
    ((main E p_noise).records.map Prod.fst)[500]? = none ∧
    (main E p_noise).final = final_fractions (evolve E p_noise N_STEPS (init E)) := by
  have h : (main E p_noise).records.map Prod.fst = List.range 500 := by
    show (evolve E p_noise N_STEPS (init E)).out.map Prod.fst = _
    rw [evolve_out_times, init_out]
    simp [N_STEPS]
  have hl : (main E p_noise).records.length = 500 := by
    have h1 := congrArg List.length h
    rw [List.length_map, List.length_range] at h1
    exact h1
  refine ⟨rfl, hl, h, ?_, ?_, ?_, ?_, rfl⟩
  · intro t ht
    rw [h]
    exact List.getElem?_range ht
  · rw [h]
    exact List.getElem?_range (by decide)
  · rw [h]
    exact List.getElem?_range (by decide)
  · rw [h, List.getElem?_eq_none]
    rw [List.length_range]

/-- C16: payoff application is symmetric.  For every state, every pair of
indices `i`, `j` (equal or not) and every pair of actions, `apply_payoff i j ai
aj` and `apply_payoff j i aj ai` give the same state. -/
theorem apply_payoff_symmetric (s : Sim) (i j : Nat) (ai aj : Int) :
    apply_payoff s i j ai aj = apply_payoff s j i aj ai := by
  unfold apply_payoff
  by_cases h1 : ai = 1 <;> by_cases h2 : aj = 1 <;>
    by_cases h3 : ai = 0 <;> by_cases h4 : aj = 0 <;>
    simp [h1, h2, h3, h4, add_payoff_comm s i j]

/-- C17: imitation only, no mutation.  In a state with a well-formed network,
for every `beta` and stream of draws, each agent's strategy after
`imitation_step` is the strategy some agent held before it; hence a value `v`
held by no agent is held by no agent after `imitation_step`, after a time
step, and after any number of time steps. -/
theorem imitation_only (E : Libc) (beta : ℚ) (s : Sim) (hnet : network_ok s) :
    (∀ k, k < N_AGENTS → ∃ m, m < N_AGENTS ∧
      ((imitation_step E beta s).agents k).strategy = (s.agents m).strategy) ∧
    (∀ v, (∀ k, k < N_AGENTS → (s.agents k).strategy ≠ v) →
      (∀ k, k < N_AGENTS → ((imitation_step E beta s).agents k).strategy ≠ v) ∧
      (∀ p_noise t k, k < N_AGENTS → ((step E p_noise t s).agents k).strategy ≠ v) ∧
      (∀ p_noise n k, k < N_AGENTS → ((evolve E p_noise n s).agents k).strategy ≠ v)) := by
  refine ⟨?_, ?_⟩
  · intro k hk
    have h := imitation_step_keeps_strategies E beta
      (fun v => ∃ m, m < N_AGENTS ∧ v = (s.agents m).strategy) s
      ⟨hnet, fun m hm => ⟨m, hm, rfl⟩⟩
    exact h.2 k hk
  · intro v hv
    refine ⟨?_, ?_, ?_⟩
    · exact (imitation_step_keeps_strategies E beta (fun w => w ≠ v) s ⟨hnet, hv⟩).2
    · intro p_noise t
      exact (step_keeps_strategies E p_noise (fun w => w ≠ v) t s ⟨hnet, hv⟩).2
    · intro p_noise n
      exact (evolve_keeps_strategies E p_noise (fun w => w ≠ v) n s ⟨hnet, hv⟩).2

/-- C17 at the sample state: its network is well-formed, and after
`imitation_step` agent 0 holds a strategy held before by some agent. -/
theorem imitation_only_witness :
    ∃ m, m < N_AGENTS ∧
      ((imitation_step sample_libc 1 sample).agents 0).strategy = (sample.agents m).strategy :=
  (imitation_only sample_libc 1 sample
    (fun i d _ _ => lt_trans (Nat.mod_lt (i + d + 1) (by decide)) (by decide))).1 0 (by decide)

/-- C19: the Fermi imitation probability over the real numbers, with `beta = 1`:
for all payoffs it lies strictly between 0 and 1, it is exactly 1/2 when the two
payoffs are equal, and it is strictly increasing in the neighbor's payoff
advantage `pj - pi`. -/
theorem fermi_prob_real (pi pj : ℝ) :
    0 < fermi_prob Real.exp 1 pi pj ∧
    fermi_prob Real.exp 1 pi pj < 1 ∧
    fermi_prob Real.exp 1 pi pi = 1 / 2 ∧
    (∀ qi qj : ℝ, pj - pi < qj - qi →
      fermi_prob Real.exp 1 pi pj < fermi_prob Real.exp 1 qi qj) := by
  unfold fermi_prob
  have hpos : ∀ x : ℝ, 0 < 1 + Real.exp x := fun x => by positivity
  refine ⟨by positivity, ?_, ?_, ?_⟩
  · rw [div_lt_one (hpos _)]
    linarith [Real.exp_pos (-1 * (pj - pi))]
  · norm_num
  · intro qi qj h
    apply one_div_lt_one_div_of_lt (hpos _)
    have : Real.exp (-1 * (qj - qi)) < Real.exp (-1 * (pj - pi)) := by
      apply Real.exp_lt_exp.mpr
      linarith
    linarith

/-! ## Populations without a defector -/

theorem reset_loop_last_action (n : Nat) (s : Sim) (k : Nat) :
    ((forLoop reset_payoff n s).agents k).last_action = (s.agents k).last_action :=
  forLoop_invariant (fun t => (t.agents k).last_action = (s.agents k).last_action) _ n
    (fun i _ t ht => by simpa using ht) s rfl

theorem reset_loop_grudged (n : Nat) (s : Sim) (k : Nat) :
    ((forLoop reset_payoff n s).agents k).grudged = (s.agents k).grudged :=
  forLoop_invariant (fun t => (t.agents k).grudged = (s.agents k).grudged) _ n
    (fun i _ t ht => by simpa using ht) s rfl

/-- In a peaceful population every agent chooses Cooperate against every
agent. -/
theorem choose_action_peaceful (s : Sim) (hp : peaceful s) (i j : Nat)
    (hi : i < N_AGENTS) (hj : j < N_AGENTS) : choose_action s i j = 1 := by
  obtain ⟨h1, _, h3⟩ := hp i hi
  obtain ⟨_, h5, _⟩ := hp j hj
  unfold choose_action
  simp only [h3, h5]
  split_ifs <;> simp_all

/-- Without noise, an interaction of the loops in a peaceful population with a
well-formed network leaves it peaceful and counts one cooperation. -/
theorem interaction_peaceful (E : Libc) (i d : Nat) (hi : i < N_AGENTS) (hd : d < DEGREE)
    (s : Sim) (hs : network_ok s ∧ peaceful s) :
    (network_ok (interaction E 0 i d s) ∧ peaceful (interaction E 0 i d s)) ∧
    (interaction E 0 i d s).coop_count = s.coop_count + 1 := by
  obtain ⟨hn, hp⟩ := hs
  have hj : s.network i d < N_AGENTS := hn i d hi hd
  have hai : noisy_ai E 0 i d s = 1 := by
    rw [noisy_ai_zero_noise]; exact choose_action_peaceful s hp _ _ hi hj
  have haj : noisy_aj E 0 i d s = 1 := by
    rw [noisy_aj_zero_noise]; exact choose_action_peaceful s hp _ _ hj hi
  refine ⟨⟨fun a b ha hb => by rw [interaction_network]; exact hn a b ha hb, ?_⟩, ?_⟩
  · intro k hk
    obtain ⟨h1, h2, h3⟩ := hp k hk
    refine ⟨by rw [interaction_strategy]; exact h1, ?_, ?_⟩
    · rw [interaction_last_action, hai, haj]
      split_ifs <;> first | rfl | exact h2
    · rw [interaction_grudged, hai, haj]
      simp [h3]
  · rw [interaction_coop_count, hai]
    simp

/-- Without noise, a time step in a peaceful population with a well-formed
network leaves it peaceful and ends with the cooperation counter at
`N_AGENTS * DEGREE`. -/
theorem step_peaceful (E : Libc) (t : Nat) (s : Sim) (hs : network_ok s ∧ peaceful s) :
    (network_ok (step E 0 t s) ∧ peaceful (step E 0 t s)) ∧
    (step E 0 t s).coop_count = ((N_AGENTS * DEGREE : Nat) : Int) := by
  obtain ⟨hn, hp⟩ := hs
  have h1 : network_ok { forLoop reset_payoff N_AGENTS s with coop_count := 0 } ∧
      peaceful { forLoop reset_payoff N_AGENTS s with coop_count := 0 } := by
    refine ⟨?_, ?_⟩
    · intro a b ha hb
      show (forLoop reset_payoff N_AGENTS s).network a b < N_AGENTS
      rw [reset_loop_network]
      exact hn a b ha hb
    · intro k hk
      show ((forLoop reset_payoff N_AGENTS s).agents k).strategy ≠ ALLD ∧
        ((forLoop reset_payoff N_AGENTS s).agents k).last_action = 1 ∧
        ((forLoop reset_payoff N_AGENTS s).agents k).grudged = 0
      rw [reset_loop_strategy, reset_loop_last_action, reset_loop_grudged]
      exact hp k hk
  have h2 := interactions_count E 0 (fun u => network_ok u ∧ peaceful u) 1
    (fun i d hi hd u hu => interaction_peaceful E i d hi hd u hu) _ h1
  have h3 := imitation_step_invariant E 1 (fun u => network_ok u ∧ peaceful u)
    (fun i hi u hu => by
      have h := imitate_keeps_strategies E 1 (fun v => v ≠ ALLD) i hi u
        ⟨hu.1, fun k hk => (hu.2 k hk).1⟩
      refine ⟨h.1, fun k hk => ⟨h.2 k hk, ?_, ?_⟩⟩
      · rw [imitate_last_action]; exact (hu.2 k hk).2.1
      · rw [imitate_grudged]; exact (hu.2 k hk).2.2)
    _ h2.1
  refine ⟨h3, ?_⟩
  rw [step_coop_count, h2.2]
  simp

/-- After `init_network(); init_agents();` every agent's last action is
Cooperate and no agent holds a grudge: the population is peaceful as soon as no
agent drew AlwaysDefect. -/
theorem init_peaceful (E : Libc)
    (h : ∀ k, k < N_AGENTS → ((init E).agents k).strategy ≠ ALLD) : peaceful (init E) := by
  intro k hk
  refine ⟨h k hk, ?_, ?_⟩
  · unfold init
    rw [(init_agents_effect E _).2.2.2.2.1 k hk]
  · unfold init
    rw [(init_agents_effect E _).2.2.2.2.1 k hk]

/-! ## Claim on the origin of defection -/

/-- C20: defection can only originate from AlwaysDefect or noise.  With noise
probability 0 and a well-formed network, from a state in which no agent plays
AlwaysDefect, every last action is Cooperate and no grudge is held (the state
after initialisation is such a state as soon as no agent drew AlwaysDefect), for
every stream of draws: after any number `n` of time steps the population is
still in such a state, so no `grudged` flag is set; the next step ends with the
cooperation counter at `N_AGENTS * DEGREE` = 400; and the records written are
`(0, 1), ..., (n - 1, 1)`. -/
theorem defection_needs_defector (E : Libc) (s : Sim) (n : Nat)
    (hnet : network_ok s) (hp : peaceful s) :
    peaceful (evolve E 0 n s) ∧
    (∀ k, k < N_AGENTS → ((evolve E 0 n s).agents k).grudged = 0) ∧
    (step E 0 n (evolve E 0 n s)).coop_count = 400 ∧
    (evolve E 0 n s).out = s.out ++ (List.range n).map (fun t => (t, (1 : ℚ))) ∧
    ((∀ k, k < N_AGENTS → ((init E).agents k).strategy ≠ ALLD) →
      network_ok (init E) ∧ peaceful (init E)) := by
  have h := evolve_constant_records E 0 (fun u => network_ok u ∧ peaceful u)
    ((N_AGENTS * DEGREE : Nat) : Int)
    (fun t u hu => step_peaceful E t u hu) n s ⟨hnet, hp⟩
  refine ⟨h.1.2, fun k hk => (h.1.2 k hk).2.2, ?_, ?_, ?_⟩
  · rw [(step_peaceful E n _ h.1).2]
    rfl
  · rw [h.2]
    simp [N_AGENTS, DEGREE]
  · intro h0
    exact ⟨init_network_ok_after_init E, init_peaceful E h0⟩

/-- C20 on the ring-like sample network with every agent on TitForTat: after
three steps without noise nobody holds a grudge and the fractions written are
1, 1, 1. -/
theorem defection_needs_defector_witness :
    peaceful (evolve sample_libc 0 3 (uniform_sample TFT)) ∧
    (evolve sample_libc 0 3 (uniform_sample TFT)).out
      = (uniform_sample TFT).out ++ (List.range 3).map (fun t => (t, (1 : ℚ))) :=
  ⟨(defection_needs_defector sample_libc (uniform_sample TFT) 3
      (fun i d _ _ => Nat.mod_lt (i + d + 1) (by decide))
      (fun _ _ => ⟨(by decide : TFT ≠ ALLD), rfl, rfl⟩)).1,
   (defection_needs_defector sample_libc (uniform_sample TFT) 3
      (fun i d _ _ => Nat.mod_lt (i + d + 1) (by decide))
      (fun _ _ => ⟨(by decide : TFT ≠ ALLD), rfl, rfl⟩)).2.2.2.1⟩

/-! ## The checked loop never fails -/

/-- Rule for a loop whose body can fail: if, under an invariant, every
iteration succeeds with the result of the unchecked body and keeps the
invariant, the checked loop succeeds with the result of the unchecked loop. -/
theorem forLoopM_eq_some {σ : Type} (Inv : σ → Prop) (bodyM : Nat → σ → Option σ)
    (body : Nat → σ → σ) (n : Nat)
    (hstep : ∀ i, i < n → ∀ s, Inv s → bodyM i s = some (body i s) ∧ Inv (body i s))
    (s : σ) (h0 : Inv s) :
    forLoopM bodyM n s = some (forLoop body n s) ∧ Inv (forLoop body n s) := by
  induction n with
  | zero => exact ⟨rfl, h0⟩
  | succ m ih =>
    obtain ⟨h1, h2⟩ := ih (fun i hi t ht => hstep i (Nat.lt_succ_of_lt hi) t ht)
    obtain ⟨h3, h4⟩ := hstep m (Nat.lt_succ_self m) _ h2
    refine ⟨?_, h4⟩
    show (forLoopM bodyM m s).bind (bodyM m) = some (body m (forLoop body m s))
    rw [h1, Option.some_bind, h3]

theorem reset_loop_checked (s : Sim) (hs : network_ok s) :
    forLoopM reset_payoff_checked N_AGENTS s = some (forLoop reset_payoff N_AGENTS s) ∧
    network_ok (forLoop reset_payoff N_AGENTS s) :=
  forLoopM_eq_some network_ok reset_payoff_checked reset_payoff N_AGENTS
    (fun i hi t ht => by
      refine ⟨by simp [reset_payoff_checked, hi], ?_⟩
      intro a b ha hb
      rw [reset_payoff_network]
      exact ht a b ha hb)
    s hs

theorem interaction_checked_ok (E : Libc) (p_noise : ℚ) (hmax : 0 < E.RAND_MAX)
    (i d : Nat) (hi : i < N_AGENTS) (hd : d < DEGREE) (s : Sim) (hs : network_ok s) :
    interaction_checked E p_noise i d s = some (interaction E p_noise i d s) ∧
    network_ok (interaction E p_noise i d s) := by
  refine ⟨?_, ?_⟩
  · unfold interaction_checked
    rw [if_pos ⟨hi, hd, hs i d hi hd, Nat.pos_iff_ne_zero.mp hmax⟩]
  · intro a b ha hb
    rw [interaction_network]
    exact hs a b ha hb

theorem interactions_checked_ok (E : Libc) (p_noise : ℚ) (hmax : 0 < E.RAND_MAX)
    (s : Sim) (hs : network_ok s) :
    interactions_checked E p_noise s = some (interactions E p_noise s) ∧
    network_ok (interactions E p_noise s) := by
  unfold interactions_checked interactions
  exact forLoopM_eq_some network_ok
    (fun i s => forLoopM (fun d s => interaction_checked E p_noise i d s) DEGREE s)
    (fun i s => forLoop (fun d s => interaction E p_noise i d s) DEGREE s) N_AGENTS
    (fun i hi t ht => forLoopM_eq_some network_ok
      (fun d s => interaction_checked E p_noise i d s)
      (fun d s => interaction E p_noise i d s) DEGREE
      (fun d hd u hu => interaction_checked_ok E p_noise hmax i d hi hd u hu) t ht)
    s hs

theorem imitate_checked_ok (E : Libc) (beta : ℚ) (hmax : 0 < E.RAND_MAX)
    (hexp : ∀ x, 0 ≤ E.exp x) (i : Nat) (hi : i < N_AGENTS) (s : Sim) (hs : network_ok s) :
    imitate_checked E beta i s = some (imitate E beta i s) ∧
    network_ok (imitate E beta i s) := by
  have hslot : (rand E s).1 % DEGREE < DEGREE := Nat.mod_lt _ (by decide)
  refine ⟨?_, ?_⟩
  · have hne : 1 + E.exp (-beta * ((s.agents (s.network i ((rand E s).1 % DEGREE))).payoff
        - (s.agents i).payoff)) ≠ 0 := by
      have := hexp (-beta * ((s.agents (s.network i ((rand E s).1 % DEGREE))).payoff
        - (s.agents i).payoff))
      linarith
    unfold imitate_checked
    simp only []
    rw [if_pos ⟨by decide, hi, hslot, hs i _ hi hslot, hne, Nat.pos_iff_ne_zero.mp hmax⟩]
  · intro a b ha hb
    rw [imitate_network]
    exact hs a b ha hb

theorem imitation_step_checked_ok (E : Libc) (beta : ℚ) (hmax : 0 < E.RAND_MAX)
    (hexp : ∀ x, 0 ≤ E.exp x) (s : Sim) (hs : network_ok s) :
    imitation_step_checked E beta s = some (imitation_step E beta s) ∧
    network_ok (imitation_step E beta s) := by
  unfold imitation_step_checked imitation_step
  exact forLoopM_eq_some network_ok (imitate_checked E beta) (imitate E beta) N_AGENTS
    (fun i hi t ht => imitate_checked_ok E beta hmax hexp i hi t ht) s hs

theorem step_checked_ok (E : Libc) (p_noise : ℚ) (hmax : 0 < E.RAND_MAX)
    (hexp : ∀ x, 0 ≤ E.exp x) (t : Nat) (s : Sim) (hs : network_ok s) :
    step_checked E p_noise t s = some (step E p_noise t s) ∧
    network_ok (step E p_noise t s) := by
  obtain ⟨h1, h2⟩ := reset_loop_checked s hs
  have h2c : network_ok { forLoop reset_payoff N_AGENTS s with coop_count := 0 } := h2
  obtain ⟨h3, h4⟩ := interactions_checked_ok E p_noise hmax _ h2c
  obtain ⟨h5, h6⟩ := imitation_step_checked_ok E 1 hmax hexp _ h4
  refine ⟨?_, ?_⟩
  · unfold step_checked
    rw [h1, Option.some_bind, h3, Option.some_bind, h5, Option.some_bind,
      if_pos (by decide)]
    rfl
  · intro a b ha hb
    rw [later_network (later_step E p_noise t s)]
    exact hs a b ha hb

theorem evolve_checked_ok (E : Libc) (p_noise : ℚ) (hmax : 0 < E.RAND_MAX)
    (hexp : ∀ x, 0 ≤ E.exp x) (n : Nat) (s : Sim) (hs : network_ok s) :
    evolve_checked E p_noise n s = some (evolve E p_noise n s) := by
  unfold evolve_checked evolve
  exact (forLoopM_eq_some network_ok (step_checked E p_noise) (step E p_noise) n
    (fun t _ u hu => step_checked_ok E p_noise hmax hexp t u hu) s hs).1

theorem final_count_checked_ok (s : Sim) (hs : strategy_ok s) :
    final_count_checked s = some (final_count s) := by
  unfold final_count_checked final_count
  refine (forLoopM_eq_some (fun _ => True) _ _ N_AGENTS ?_ (fun _ => 0) trivial).1
  intro i hi count _
  refine ⟨?_, trivial⟩
  have h := hs i hi
  simp only [ALLC, ALLD, TFT, GRUD] at h
  rw [if_pos ⟨hi, by omega, by omega⟩]

/-! ## Claim on totality -/

/-- C18: the simulation loop is total.  Given a C library whose `RAND_MAX` is
positive and whose `exp` is never negative, for every noise probability and
stream of draws, started from the state after `init_network` and `init_agents`,
the loop in which every array access checks its index (`agents[i]`,
`agents[j]`, `network[i][slot]`, `count[agents[i].strategy]`) and every division
and modulo checks its divisor never fails: any number of checked time steps,
the checked final count and the whole checked run succeed, with the results of
the unchecked ones. -/
theorem simulation_total (E : Libc) (p_noise : ℚ) (hmax : 0 < E.RAND_MAX)
    (hexp : ∀ x, 0 ≤ E.exp x) :
    (∀ n, evolve_checked E p_noise n (init E) = some (evolve E p_noise n (init E))) ∧
    (∀ n t, step_checked E p_noise t (evolve E p_noise n (init E))
      = some (step E p_noise t (evolve E p_noise n (init E)))) ∧
    (∀ n, final_count_checked (evolve E p_noise n (init E))
      = some (final_count (evolve E p_noise n (init E)))) ∧
    main_checked E p_noise = some (main E p_noise) := by
  have h1 : ∀ n, evolve_checked E p_noise n (init E) = some (evolve E p_noise n (init E)) :=
    fun n => evolve_checked_ok E p_noise hmax hexp n (init E) (init_network_ok_after_init E)
  have h2 : ∀ n, final_count_checked (evolve E p_noise n (init E))
      = some (final_count (evolve E p_noise n (init E))) :=
    fun n => final_count_checked_ok _ (evolve_init_ok E p_noise n).2
  refine ⟨h1, ?_, h2, ?_⟩
  · intro n t
    exact (step_checked_ok E p_noise hmax hexp t _ (evolve_init_ok E p_noise n).1).1
  · unfold main_checked
    rw [h1 N_STEPS, Option.some_bind, h2 N_STEPS, Option.some_bind, if_pos (by decide)]
    rfl

/-- C18 for the sample library (`RAND_MAX = 32767`, a stand-in for `exp` that is
positive everywhere) and noise probability 1/10: the checked run succeeds. -/
theorem simulation_total_witness :
    main_checked sample_libc (1 / 10) = some (main sample_libc (1 / 10)) :=
  (simulation_total sample_libc (1 / 10) (by decide)
    (fun x => by
      show (0 : ℚ) ≤ 1 + x + x * x / 2
      nlinarith [sq_nonneg (x + 1)])).2.2.2

/-! ## What one operation reads -/

/-- Two agents with the same fields are the same agent. -/
theorem agent_ext (x y : Agent) (h1 : x.strategy = y.strategy)
    (h2 : x.last_action = y.last_action) (h3 : x.grudged = y.grudged)
    (h4 : x.payoff = y.payoff) : x = y := by
  cases x
  cases y
  simp_all

/-- The result of `choose_action i j` depends on `agents[i]` and `agents[j]`
only. -/
theorem choose_action_congr (s s1 : Sim) (i j : Nat) (hi : s.agents i = s1.agents i)
    (hj : s.agents j = s1.agents j) : choose_action s i j = choose_action s1 i j := by
  unfold choose_action
  rw [hi, hj]

/-- The payoff of an agent after `apply_payoff` depends on its payoff before
only. -/
theorem apply_payoff_payoff_congr (s s1 : Sim) (i j m : Nat) (ai aj : Int)
    (h : (s.agents m).payoff = (s1.agents m).payoff) :
    ((apply_payoff s i j ai aj).agents m).payoff
      = ((apply_payoff s1 i j ai aj).agents m).payoff := by
  unfold apply_payoff
  split_ifs <;> simp [add_payoff_payoff, h]

/-- The payoffs after an interaction are those `apply_payoff` gives for the
two noise-applied actions. -/
theorem interaction_payoff (E : Libc) (p_noise : ℚ) (i d m : Nat) (s : Sim) :
    ((interaction E p_noise i d s).agents m).payoff
      = ((apply_payoff s i (s.network i d) (noisy_ai E p_noise i d s)
          (noisy_aj E p_noise i d s)).agents m).payoff := by
  simp only [interaction]
  split_ifs <;>
    · simp only [set_last_action_payoff]
      exact apply_payoff_payoff_congr _ _ _ _ _ _ _ (by simp)

/-- The agents after one imitation: agent `i` takes the strategy of the
neighbor in the slot drawn when the second draw passes the accept test, and
nothing else changes. -/
theorem imitate_agents (E : Libc) (beta : ℚ) (i m : Nat) (s : Sim) :
    (imitate E beta i s).agents m
      = if m = i ∧ (E.rand_stream (s.rand_calls + 1) : ℚ) / (E.RAND_MAX : ℚ)
            < fermi_prob E.exp beta (s.agents i).payoff
                (s.agents (s.network i (E.rand_stream s.rand_calls % DEGREE))).payoff
        then { s.agents i with
                strategy := (s.agents (s.network i (E.rand_stream s.rand_calls % DEGREE))).strategy }
        else s.agents m := by
  simp only [imitate, randu, rand]
  by_cases hacc : (E.rand_stream (s.rand_calls + 1) : ℚ) / (E.RAND_MAX : ℚ)
      < fermi_prob E.exp beta (s.agents i).payoff
          (s.agents (s.network i (E.rand_stream s.rand_calls % DEGREE))).payoff
  · rw [if_pos hacc]
    by_cases hm : m = i
    · rw [if_pos ⟨hm, hacc⟩]
      simp [set_strategy, hm]
    · rw [if_neg (fun h => hm h.1)]
      simp [set_strategy, hm]
  · rw [if_neg hacc, if_neg (fun h => hacc h.2)]

/-! ## Operations on states that hold the same data -/

/-- In two states with the same data, under libraries with the same draws, the
noise-applied actions of an interaction of the loops are the same. -/
theorem noisy_actions_same (E E1 : Libc) (p_noise : ℚ) (B : Nat) (hE : same_draws B E E1)
    (i d : Nat) (hi : i < N_AGENTS) (hd : d < DEGREE) (s s1 : Sim) (h : same_data s s1)
    (hn : network_ok s) (hB : s.rand_calls + 2 ≤ B) :
    s.network i d = s1.network i d ∧
    noisy_ai E p_noise i d s = noisy_ai E1 p_noise i d s1 ∧
    noisy_aj E p_noise i d s = noisy_aj E1 p_noise i d s1 := by
  obtain ⟨ha, hw, hr, _, _⟩ := h
  obtain ⟨e1, _, e3⟩ := hE
  have hj := hw i d hi hd
  have hjn : s.network i d < N_AGENTS := hn i d hi hd
  have c1 : choose_action s i (s.network i d) = choose_action s1 i (s1.network i d) := by
    rw [← hj]; exact choose_action_congr _ _ _ _ (ha i hi) (ha _ hjn)
  have c2 : choose_action s (s.network i d) i = choose_action s1 (s1.network i d) i := by
    rw [← hj]; exact choose_action_congr _ _ _ _ (ha _ hjn) (ha i hi)
  have d1 : E.rand_stream s.rand_calls = E1.rand_stream s1.rand_calls := by
    rw [← hr]; exact e3 _ (by omega)
  have d2 : E.rand_stream (s.rand_calls + 1) = E1.rand_stream (s1.rand_calls + 1) := by
    rw [← hr]; exact e3 _ (by omega)
  refine ⟨hj, ?_, ?_⟩
  · simp only [noisy_ai, randu_value, c1, d1, e1]
  · simp only [noisy_aj, randu_value, randu_rand_calls, c2, d2, e1]

/-- An interaction of the loops keeps two states on the same data. -/
theorem interaction_same (E E1 : Libc) (p_noise : ℚ) (B : Nat) (hE : same_draws B E E1)
    (i d : Nat) (hi : i < N_AGENTS) (hd : d < DEGREE) (s s1 : Sim) (h : same_data s s1)
    (hn : network_ok s) (hB : s.rand_calls + 2 ≤ B) :
    same_data (interaction E p_noise i d s) (interaction E1 p_noise i d s1) := by
  obtain ⟨hj, hai, haj⟩ := noisy_actions_same E E1 p_noise B hE i d hi hd s s1 h hn hB
  obtain ⟨ha, hw, hr, hc, ho⟩ := h
  refine ⟨?_, ?_, ?_, ?_, ?_⟩
  · intro k hk
    refine agent_ext _ _ ?_ ?_ ?_ ?_
    · rw [interaction_strategy, interaction_strategy, ha k hk]
    · rw [interaction_last_action, interaction_last_action, ← hj, ← hai, ← haj, ha k hk]
    · rw [interaction_grudged, interaction_grudged, ← hj, ← hai, ← haj, ha k hk]
    · rw [interaction_payoff, interaction_payoff, ← hj, ← hai, ← haj]
      exact apply_payoff_payoff_congr _ _ _ _ _ _ _ (by rw [ha k hk])
  · intro a b ha1 hb
    rw [interaction_network, interaction_network]
    exact hw a b ha1 hb
  · rw [interaction_rand_calls, interaction_rand_calls, hr]
  · rw [interaction_coop_count, interaction_coop_count, hc, hai]
  · rw [interaction_out, interaction_out, ho]

/-- One imitation of the loop keeps two states on the same data. -/
theorem imitate_same (E E1 : Libc) (beta : ℚ) (B : Nat) (hE : same_draws B E E1)
    (i : Nat) (hi : i < N_AGENTS) (s s1 : Sim) (h : same_data s s1)
    (hn : network_ok s) (hB : s.rand_calls + 2 ≤ B) :
    same_data (imitate E beta i s) (imitate E1 beta i s1) := by
  obtain ⟨ha, hw, hr, hc, ho⟩ := h
  obtain ⟨e1, e2, e3⟩ := hE
  have d1 : E.rand_stream s.rand_calls = E1.rand_stream s.rand_calls := e3 _ (by omega)
  have d2 : E.rand_stream (s.rand_calls + 1) = E1.rand_stream (s.rand_calls + 1) :=
    e3 _ (by omega)
  have hslot : E.rand_stream s.rand_calls % DEGREE < DEGREE := Nat.mod_lt _ (by decide)
  have hj := hw i _ hi hslot
  have hjn : s.network i (E.rand_stream s.rand_calls % DEGREE) < N_AGENTS := hn i _ hi hslot
  refine ⟨?_, ?_, ?_, ?_, ?_⟩
  · intro k hk
    rw [imitate_agents, imitate_agents, ← hr, ← e1, ← e2, ← d1, ← d2, ← hj,
      ← ha i hi, ← ha _ hjn, ← ha k hk]
  · intro a b ha1 hb
    rw [imitate_network, imitate_network]
    exact hw a b ha1 hb
  · rw [imitate_rand_calls, imitate_rand_calls, hr]
  · rw [imitate_coop_count, imitate_coop_count, hc]
  · rw [imitate_out, imitate_out, ho]

/-- A payoff reset keeps two states on the same data. -/
theorem reset_payoff_same (i : Nat) (s s1 : Sim) (h : same_data s s1) :
    same_data (reset_payoff i s) (reset_payoff i s1) := by
  obtain ⟨ha, hw, hr, hc, ho⟩ := h
  refine ⟨?_, hw, hr, hc, ho⟩
  intro k hk
  refine agent_ext _ _ (by simp [ha k hk]) (by simp [ha k hk]) (by simp [ha k hk]) ?_
  rw [reset_payoff_payoff, reset_payoff_payoff, ha k hk]

/-! ## Loops on two states -/

/-- Loop rule for two runs of a loop side by side, with a relation that may
mention the iteration number. -/
theorem forLoop_rel {σ : Type} (Rel : Nat → σ → σ → Prop) (body body1 : Nat → σ → σ)
    (n : Nat)
    (hstep : ∀ i, i < n → ∀ s s1, Rel i s s1 → Rel (i + 1) (body i s) (body1 i s1))
    (s s1 : σ) (h0 : Rel 0 s s1) : Rel n (forLoop body n s) (forLoop body1 n s1) := by
  induction n with
  | zero => exact h0
  | succ m ih =>
    exact hstep m (Nat.lt_succ_self m) _ _
      (ih (fun i hi t t1 ht => hstep i (Nat.lt_succ_of_lt hi) t t1 ht))

/-- Rule for two runs of two nested loops side by side. -/
theorem nested_forLoop_rel {σ : Type} (Rel : Nat → σ → σ → Prop)
    (body body1 : Nat → Nat → σ → σ) (n w : Nat)
    (hstep : ∀ i d, i < n → d < w → ∀ s s1, Rel (i * w + d) s s1 →
      Rel (i * w + d + 1) (body i d s) (body1 i d s1))
    (s s1 : σ) (h0 : Rel 0 s s1) :
    Rel (n * w) (forLoop (fun i s => forLoop (fun d s => body i d s) w s) n s)
      (forLoop (fun i s => forLoop (fun d s => body1 i d s) w s) n s1) := by
  refine forLoop_rel (fun i t t1 => Rel (i * w) t t1) _ _ n ?_ s s1 (by simpa using h0)
  intro i hi t t1 ht
  have hin : Rel (i * w + w) (forLoop (fun d s => body i d s) w t)
      (forLoop (fun d s => body1 i d s) w t1) :=
    forLoop_rel (fun d u u1 => Rel (i * w + d) u u1) _ _ w
      (fun d hd u u1 hu => hstep i d hi hd u u1 hu) t t1 ht
  have he : (i + 1) * w = i * w + w := Nat.succ_mul i w
  show Rel ((i + 1) * w) _ _
  rw [he]
  exact hin

/-! ## Runs on the same data -/

/-- The interaction loops keep two states on the same data, as long as the
draws they make are among the shared ones. -/
theorem interactions_same (E E1 : Libc) (p_noise : ℚ) (B : Nat) (hE : same_draws B E E1)
    (s s1 : Sim) (h : same_data s s1) (hn : network_ok s)
    (hB : s.rand_calls + 2 * (N_AGENTS * DEGREE) ≤ B) :
    same_data (interactions E p_noise s) (interactions E1 p_noise s1) ∧
    network_ok (interactions E p_noise s) := by
  have hstep : ∀ i d, i < N_AGENTS → d < DEGREE → ∀ t t1 : Sim,
      (same_data t t1 ∧ network_ok t ∧ t.rand_calls = s.rand_calls + 2 * (i * DEGREE + d)) →
      (same_data (interaction E p_noise i d t) (interaction E1 p_noise i d t1) ∧
        network_ok (interaction E p_noise i d t) ∧
        (interaction E p_noise i d t).rand_calls
          = s.rand_calls + 2 * (i * DEGREE + d + 1)) := by
    intro i d hi hd t t1 ht
    obtain ⟨h1, h2, h3⟩ := ht
    refine ⟨interaction_same E E1 p_noise B hE i d hi hd t t1 h1 h2 ?_, ?_, ?_⟩
    · simp only [N_AGENTS, DEGREE] at hi hd hB h3 ⊢
      omega
    · intro a b ha hb
      rw [interaction_network]
      exact h2 a b ha hb
    · rw [interaction_rand_calls, h3]
      omega
  have h := nested_forLoop_rel
    (fun c t t1 => same_data t t1 ∧ network_ok t ∧ t.rand_calls = s.rand_calls + 2 * c)
    (interaction E p_noise) (interaction E1 p_noise) N_AGENTS DEGREE hstep s s1
    ⟨h, hn, rfl⟩
  unfold interactions
  exact ⟨h.1, h.2.1⟩

/-- The function `imitation_step` keeps two states on the same data, as long as
the draws it makes are among the shared ones. -/
theorem imitation_step_same (E E1 : Libc) (beta : ℚ) (B : Nat) (hE : same_draws B E E1)
    (s s1 : Sim) (h : same_data s s1) (hn : network_ok s)
    (hB : s.rand_calls + 2 * N_AGENTS ≤ B) :
    same_data (imitation_step E beta s) (imitation_step E1 beta s1) ∧
    network_ok (imitation_step E beta s) := by
  have hstep : ∀ i, i < N_AGENTS → ∀ t t1 : Sim,
      (same_data t t1 ∧ network_ok t ∧ t.rand_calls = s.rand_calls + 2 * i) →
      (same_data (imitate E beta i t) (imitate E1 beta i t1) ∧
        network_ok (imitate E beta i t) ∧
        (imitate E beta i t).rand_calls = s.rand_calls + 2 * (i + 1)) := by
    intro i hi t t1 ht
    obtain ⟨h1, h2, h3⟩ := ht
    refine ⟨imitate_same E E1 beta B hE i hi t t1 h1 h2 ?_, ?_, ?_⟩
    · simp only [N_AGENTS] at hi hB
      omega
    · intro a b ha hb
      rw [imitate_network]
      exact h2 a b ha hb
    · rw [imitate_rand_calls, h3]
      omega
  have h := forLoop_rel
    (fun c t t1 => same_data t t1 ∧ network_ok t ∧ t.rand_calls = s.rand_calls + 2 * c)
    (imitate E beta) (imitate E1 beta) N_AGENTS hstep s s1 ⟨h, hn, rfl⟩
  unfold imitation_step
  exact ⟨h.1, h.2.1⟩

/-- A time step keeps two states on the same data, as long as the 1000 draws it
makes are among the shared ones. -/
theorem step_same (E E1 : Libc) (p_noise : ℚ) (B : Nat) (hE : same_draws B E E1)
    (t : Nat) (s s1 : Sim) (h : same_data s s1) (hn : network_ok s)
    (hB : s.rand_calls + 1000 ≤ B) :
    same_data (step E p_noise t s) (step E1 p_noise t s1) := by
  have h1 := forLoop_rel (fun _ u u1 => same_data u u1) reset_payoff reset_payoff N_AGENTS
    (fun i _ u u1 hu => reset_payoff_same i u u1 hu) s s1 h
  have h1c : same_data { forLoop reset_payoff N_AGENTS s with coop_count := 0 }
      { forLoop reset_payoff N_AGENTS s1 with coop_count := 0 } :=
    ⟨h1.1, h1.2.1, h1.2.2.1, rfl, h1.2.2.2.2⟩
  have n1 : network_ok { forLoop reset_payoff N_AGENTS s with coop_count := 0 } := by
    intro a b ha hb
    show (forLoop reset_payoff N_AGENTS s).network a b < N_AGENTS
    rw [reset_loop_network]
    exact hn a b ha hb
  have r1 : ({ forLoop reset_payoff N_AGENTS s with coop_count := 0 } : Sim).rand_calls
      = s.rand_calls := reset_loop_rand_calls N_AGENTS s
  have h2 := interactions_same E E1 p_noise B hE _ _ h1c n1
    (by rw [r1]; simp only [N_AGENTS, DEGREE]; omega)
  have r2 : (interactions E p_noise
      { forLoop reset_payoff N_AGENTS s with coop_count := 0 }).rand_calls
        = s.rand_calls + 2 * (N_AGENTS * DEGREE) := by
    rw [interactions_rand_calls, r1]
  have h3 := imitation_step_same E E1 1 B hE _ _ h2.1 h2.2
    (by rw [r2]; simp only [N_AGENTS, DEGREE]; omega)
  obtain ⟨a3, w3, c3, k3, o3⟩ := h3.1
  refine ⟨a3, w3, c3, k3, ?_⟩
  show (imitation_step E 1 (interactions E p_noise
      { forLoop reset_payoff N_AGENTS s with coop_count := 0 })).out ++ _
    = (imitation_step E1 1 (interactions E1 p_noise
      { forLoop reset_payoff N_AGENTS s1 with coop_count := 0 })).out ++ _
  rw [o3, k3]

/-- The number of draws made by `n` time steps. -/
theorem evolve_rand_calls (E : Libc) (p_noise : ℚ) (n : Nat) (s : Sim) :
    (evolve E p_noise n s).rand_calls = s.rand_calls + 1000 * n := by
  induction n with
  | zero => rfl
  | succ m ih =>
    show (step E p_noise m (evolve E p_noise m s)).rand_calls = _
    rw [step_rand_calls, ih]
    simp only [N_AGENTS, DEGREE]
    omega

/-- Any number of time steps keeps two states on the same data, as long as the
draws they make are among the shared ones. -/
theorem evolve_same (E E1 : Libc) (p_noise : ℚ) (B : Nat) (hE : same_draws B E E1)
    (n : Nat) (s s1 : Sim) (h : same_data s s1) (hn : network_ok s)
    (hB : s.rand_calls + 1000 * n ≤ B) :
    same_data (evolve E p_noise n s) (evolve E1 p_noise n s1) := by
  have hstep : ∀ t, t < n → ∀ u u1 : Sim,
      (same_data u u1 ∧ network_ok u ∧ u.rand_calls = s.rand_calls + 1000 * t) →
      (same_data (step E p_noise t u) (step E1 p_noise t u1) ∧
        network_ok (step E p_noise t u) ∧
        (step E p_noise t u).rand_calls = s.rand_calls + 1000 * (t + 1)) := by
    intro t ht u u1 hu
    obtain ⟨h1, h2, h3⟩ := hu
    refine ⟨step_same E E1 p_noise B hE t u u1 h1 h2 (by omega), ?_, ?_⟩
    · intro a b ha hb
      rw [later_network (later_step E p_noise t u)]
      exact h2 a b ha hb
    · rw [step_rand_calls, h3]
      simp only [N_AGENTS, DEGREE]
      omega
  have h := forLoop_rel
    (fun c u u1 => same_data u u1 ∧ network_ok u ∧ u.rand_calls = s.rand_calls + 1000 * c)
    (step E p_noise) (step E1 p_noise) n hstep s s1 ⟨h, hn, by omega⟩
  unfold evolve
  exact h.1

/-- The final counts depend on `agents[0 .. N_AGENTS)` only. -/
theorem final_count_congr (s s1 : Sim) (h : ∀ k, k < N_AGENTS → s.agents k = s1.agents k) :
    final_count s = final_count s1 := by
  unfold final_count
  exact forLoop_rel (fun _ (c c1 : Int → Int) => c = c1) _ _ N_AGENTS
    (fun i hi c c1 hc => by rw [hc, h i hi]) _ _ rfl

/-- Initialisation brings any two start states with the same counters and
output to the same data, when the 500 draws it makes are shared. -/
theorem init_same (E E1 : Libc) (B : Nat) (hE : same_draws B E E1) (hB : 500 ≤ B)
    (s s1 : Sim) (hr : s.rand_calls = 0) (hr1 : s1.rand_calls = 0)
    (hc : s.coop_count = s1.coop_count) (ho : s.out = s1.out) :
    same_data (init_agents E (init_network E s)) (init_agents E1 (init_network E1 s1)) ∧
    network_ok (init_agents E (init_network E s)) ∧
    (init_agents E (init_network E s)).rand_calls = 500 := by
  obtain ⟨_, e2, e3⟩ := hE
  obtain ⟨_, n2, n3, n4, n5, _⟩ := init_network_effect E s
  obtain ⟨_, m2, m3, m4, m5, _⟩ := init_network_effect E1 s1
  obtain ⟨a1, a2, a3, a4, a5, _⟩ := init_agents_effect E (init_network E s)
  obtain ⟨b1, b2, b3, b4, b5, _⟩ := init_agents_effect E1 (init_network E1 s1)
  refine ⟨⟨?_, ?_, ?_, ?_, ?_⟩, ?_, ?_⟩
  · intro k hk
    rw [a5 k hk, b5 k hk, n4, m4, hr, hr1, e3 _ (by
      simp only [N_AGENTS, DEGREE] at hk ⊢
      omega)]
  · intro i d hi hd
    rw [a1, b1, n5 i d hi hd, m5 i d hi hd, hr, hr1, e3 _ (by
      simp only [N_AGENTS, DEGREE] at hi hd ⊢
      omega)]
  · rw [a4, b4, n4, m4, hr, hr1]
  · rw [a3, b3, n3, m3, hc]
  · rw [a2, b2, n2, m2, ho]
  · intro i d hi hd
    rw [a1]
    exact init_network_ok E s i d hi hd
  · rw [a4, n4, hr]
    rfl

/-! ## Claim on determinism -/

/-- C14: determinism.  The output of a run (the per-step records and the final
strategy fractions) is determined by the noise probability and the draws: two
runs with the same noise probability, under C libraries with the same
`RAND_MAX`, the same `exp` and the same first 500500 draws, write the same
output, whatever the memory of the arrays held when each run started; `main`
is the run from zeroed memory. -/
theorem run_deterministic (E E1 : Libc) (p_noise : ℚ) (a a1 : Nat → Agent)
    (w w1 : Nat → Nat → Nat) (hE : same_draws 500500 E E1) :
    main_from E p_noise (memory a w) = main_from E1 p_noise (memory a1 w1) ∧
    main E p_noise = main_from E p_noise start ∧
    main E p_noise = main E1 p_noise := by
  have key : ∀ (b b1 : Nat → Agent) (v v1 : Nat → Nat → Nat),
      main_from E p_noise (memory b v) = main_from E1 p_noise (memory b1 v1) := by
    intro b b1 v v1
    obtain ⟨h1, h2, h3⟩ := init_same E E1 500500 hE (by decide)
      (memory b v) (memory b1 v1) rfl rfl rfl rfl
    have h4 := evolve_same E E1 p_noise 500500 hE N_STEPS _ _ h1 h2
      (by rw [h3]; simp only [N_STEPS]; omega)
    have h5 := final_count_congr _ _ h4.1
    unfold main_from final_fractions
    simp only []
    rw [h5, h4.2.2.2.2]
  exact ⟨key a a1 w w1, rfl, key _ _ _ _⟩

/-- C14 for the sample library and noise probability 1/10: the run that starts
from the memory of the sample state and the run that starts from a memory full
of defectors write the same output. -/
theorem run_deterministic_witness :
    main_from sample_libc (1 / 10) (memory sample.agents sample.network)
      = main_from sample_libc (1 / 10)
          (memory (uniform_sample ALLD).agents (uniform_sample ALLD).network) :=
  (run_deterministic sample_libc sample_libc (1 / 10) sample.agents
    (uniform_sample ALLD).agents sample.network (uniform_sample ALLD).network
    ⟨rfl, rfl, fun _ _ => rfl⟩).1

/-- The checks of the checked loop are real: an interaction whose neighbor
entry is 100, one past the last agent, fails. -/
theorem interaction_checked_out_of_range :
    interaction_checked sample_libc 0 0 0 { sample with network := fun _ _ => 100 } = none := by
  simp [interaction_checked, N_AGENTS]

/-- What does hold of `randu`: for a draw `r ≤ RAND_MAX` the value is in
`[0, 1]`, and it is below 1 exactly when `r < RAND_MAX`. -/
theorem randu_range (E : Libc) (s : Sim) (hmax : 0 < E.RAND_MAX)
    (hr : E.rand_stream s.rand_calls ≤ E.RAND_MAX) :
    0 ≤ (randu E s).1 ∧ (randu E s).1 ≤ 1 ∧
    ((randu E s).1 < 1 ↔ E.rand_stream s.rand_calls < E.RAND_MAX) := by
  have hpos : (0 : ℚ) < (E.RAND_MAX : ℚ) := by exact_mod_cast hmax
  rw [randu_value]
  refine ⟨div_nonneg (Nat.cast_nonneg _) hpos.le, ?_, ?_⟩
  · rw [div_le_one hpos]
    exact_mod_cast hr
  · rw [div_lt_one hpos]
    exact_mod_cast Iff.rfl

/-! ## Rounding of payoff sums -/

/-- An integer rounds to itself. -/
theorem round_half_even_intCast (m : ℤ) : round_half_even (m : ℚ) = m := by
  unfold round_half_even
  rw [Int.floor_intCast, sub_self, if_pos (by norm_num)]

theorem double_ulp_pos (x : ℚ) : 0 < double_ulp x := by
  unfold double_ulp
  positivity

/-- A multiple of the spacing at `x` is a binary64 value: rounding keeps it. -/
theorem round_double_of_multiple (x : ℚ) (m : ℤ) (h : x = (m : ℚ) * double_ulp x) :
    round_double x = x := by
  have hq : x / double_ulp x = (m : ℚ) := by
    rw [div_eq_iff (double_ulp_pos x).ne']
    exact h
  unfold round_double
  rw [hq, round_half_even_intCast]
  exact h.symm

/-- Below `2 ^ 53` in magnitude the spacing at an integer is `1 / 2 ^ k` for
some `k`. -/
theorem double_ulp_int (n : ℤ) (h : |n| < 2 ^ 53) :
    ∃ k : ℕ, double_ulp (n : ℚ) = 1 / (2 : ℚ) ^ k := by
  have hlog : Int.log 2 |(n : ℚ)| ≤ 52 := by
    by_cases h0 : n = 0
    · rw [h0]
      simp
    · have hpos : (0 : ℚ) < |(n : ℚ)| := abs_pos.mpr (by exact_mod_cast h0)
      have hlt : |(n : ℚ)| < ((2 : ℕ) : ℚ) ^ (53 : ℤ) := by
        have : ((|n| : ℤ) : ℚ) < ((2 ^ 53 : ℤ) : ℚ) := by exact_mod_cast h
        rw [Int.cast_abs] at this
        norm_num at this ⊢
        exact this
      have := (Int.lt_zpow_iff_log_lt (by decide : 1 < 2) hpos).mp hlt
      omega
  have he : max (Int.log 2 |(n : ℚ)|) (-1022) ≤ 52 := max_le hlog (by decide)
  refine ⟨(52 - max (Int.log 2 |(n : ℚ)|) (-1022)).toNat, ?_⟩
  unfold double_ulp
  have hk : max (Int.log 2 |(n : ℚ)|) (-1022) - 52
      = -(((52 - max (Int.log 2 |(n : ℚ)|) (-1022)).toNat : ℕ) : ℤ) := by
    rw [Int.toNat_of_nonneg (by omega)]
    omega
  rw [hk, zpow_neg, zpow_natCast, one_div]

/-- An integer below `2 ^ 53` in magnitude is a binary64 value. -/
theorem round_double_int (n : ℤ) (h : |n| < 2 ^ 53) : round_double (n : ℚ) = n := by
  obtain ⟨k, hk⟩ := double_ulp_int n h
  refine round_double_of_multiple (n : ℚ) (n * 2 ^ k) ?_
  rw [hk]
  push_cast
  field_simp

/-- The machine sum of two integers is exact when the sum stays below `2 ^ 53`
in magnitude. -/
theorem double_add_int (a b : ℤ) (h : |a + b| < 2 ^ 53) :
    double_add (a : ℚ) (b : ℚ) = (a : ℚ) + (b : ℚ) := by
  unfold double_add
  have hc : (a : ℚ) + (b : ℚ) = ((a + b : ℤ) : ℚ) := by push_cast; rfl
  rw [hc]
  exact round_double_int (a + b) h

/-- The double `+=` of an integer amount to an integer payoff is the exact one
while the sum stays below `2 ^ 53` in magnitude. -/
theorem add_payoff_double_eq (s : Sim) (k : Nat) (q : ℚ) (n v : ℤ)
    (hp : (s.agents k).payoff = (n : ℚ)) (hq : q = (v : ℚ)) (h : |n + v| < 2 ^ 53) :
    add_payoff_double s k q = add_payoff s k q := by
  unfold add_payoff_double add_payoff
  rw [hp, hq, double_add_int n v h]

/-- At `2 ^ 53 + 3` the two nearest binary64 values are `2 ^ 53 + 2` and
`2 ^ 53 + 4`, and the second is the nearer one. -/
theorem round_double_past_53_bits :
    round_double 9007199254740995 = 9007199254740996 := by
  have hlog : Int.log 2 |(9007199254740995 : ℚ)| = 53 := by
    have hpos : (0 : ℚ) < |(9007199254740995 : ℚ)| := by norm_num
    have h1 := (Int.lt_zpow_iff_log_lt (R := ℚ) (by decide : 1 < 2) (x := 54) hpos).mp
      (by norm_num)
    have h2 := (Int.zpow_le_iff_le_log (R := ℚ) (by decide : 1 < 2) (x := 53) hpos).mp
      (by norm_num)
    omega
  have hulp : double_ulp 9007199254740995 = 2 := by
    unfold double_ulp
    rw [hlog]
    norm_num
  have hfloor : ⌊(9007199254740995 : ℚ) / 2⌋ = 4503599627370497 := by
    rw [Int.floor_eq_iff]
    norm_num
  unfold round_double round_half_even
  rw [hulp, hfloor]
  norm_num

/-! ## `apply_payoff` in double arithmetic -/

/-- Two double `+=` of integer amounts of magnitude at most 5, to agents whose
payoffs are integers of magnitude at most `2 ^ 52`, are the two exact ones. -/
theorem add_payoff_double_twice (s : Sim) (i j : Nat) (qa qb : ℚ) (a b : ℤ)
    (hqa : qa = (a : ℚ)) (hqb : qb = (b : ℚ)) (ha : |a| ≤ 5) (hb : |b| ≤ 5)
    (hi : ∃ n : ℤ, |n| ≤ 2 ^ 52 ∧ (s.agents i).payoff = (n : ℚ))
    (hj : ∃ n : ℤ, |n| ≤ 2 ^ 52 ∧ (s.agents j).payoff = (n : ℚ)) :
    add_payoff_double (add_payoff_double s i qa) j qb
      = add_payoff (add_payoff s i qa) j qb := by
  obtain ⟨ni, hni, hpi⟩ := hi
  obtain ⟨nj, hnj, hpj⟩ := hj
  obtain ⟨a1, a2⟩ := abs_le.mp ha
  obtain ⟨b1, b2⟩ := abs_le.mp hb
  norm_num at hni hnj
  obtain ⟨i1, i2⟩ := abs_le.mp hni
  obtain ⟨j1, j2⟩ := abs_le.mp hnj
  have e1 : add_payoff_double s i qa = add_payoff s i qa :=
    add_payoff_double_eq s i qa ni a hpi hqa (by
      norm_num
      exact abs_lt.mpr ⟨by omega, by omega⟩)
  rw [e1]
  by_cases hji : j = i
  · have hp : ((add_payoff s i qa).agents j).payoff = ((ni + a : ℤ) : ℚ) := by
      rw [add_payoff_payoff, if_pos hji, hji, hpi, hqa]
      push_cast
      rfl
    exact add_payoff_double_eq _ j qb (ni + a) b hp hqb (by
      norm_num
      exact abs_lt.mpr ⟨by omega, by omega⟩)
  · have hp : ((add_payoff s i qa).agents j).payoff = (nj : ℚ) := by
      rw [add_payoff_payoff, if_neg hji, hpj]
    exact add_payoff_double_eq _ j qb nj b hp hqb (by
      norm_num
      exact abs_lt.mpr ⟨by omega, by omega⟩)

/-- Where the payoffs of `i` and `j` are integers of magnitude at most `2 ^ 52`,
`apply_payoff` in double arithmetic is `apply_payoff` with exact sums. -/
theorem apply_payoff_double_eq (s : Sim) (i j : Nat) (ai aj : Int)
    (hi : ∃ n : ℤ, |n| ≤ 2 ^ 52 ∧ (s.agents i).payoff = (n : ℚ))
    (hj : ∃ n : ℤ, |n| ≤ 2 ^ 52 ∧ (s.agents j).payoff = (n : ℚ)) :
    apply_payoff_double s i j ai aj = apply_payoff s i j ai aj := by
  have hR : R = ((3 : ℤ) : ℚ) := by norm_num [R]
  have hT : T = ((5 : ℤ) : ℚ) := by norm_num [T]
  have hS : S = ((0 : ℤ) : ℚ) := by norm_num [S]
  have hP : P = ((1 : ℤ) : ℚ) := by norm_num [P]
  unfold apply_payoff_double apply_payoff
  split_ifs
  · exact add_payoff_double_twice s i j R R 3 3 hR hR (by decide) (by decide) hi hj
  · exact add_payoff_double_twice s i j S T 0 5 hS hT (by decide) (by decide) hi hj
  · exact add_payoff_double_twice s i j T S 5 0 hT hS (by decide) (by decide) hi hj
  · exact add_payoff_double_twice s i j P P 1 1 hP hP (by decide) (by decide) hi hj

/-! ## Claim on `apply_payoff` -/

/-- C2 fails where the payoffs are too large for exact sums: with every payoff
at `2 ^ 53`, mutual cooperation between agents 0 and 1 adds 4 to agent 0's
payoff in double arithmetic, not 3. -/
theorem apply_payoff_double_rounds :
    ((apply_payoff_double huge_payoffs 0 1 1 1).agents 0).payoff
      = (huge_payoffs.agents 0).payoff + 4 ∧
    ((apply_payoff_double huge_payoffs 0 1 1 1).agents 0).payoff
      ≠ (huge_payoffs.agents 0).payoff + 3 := by
  have h : ((apply_payoff_double huge_payoffs 0 1 1 1).agents 0).payoff
      = 9007199254740996 := by
    have h3 : (9007199254740992 : ℚ) + 3 = 9007199254740995 := by norm_num
    simp only [apply_payoff_double, add_payoff_double, double_add, huge_payoffs, R]
    simp [h3, round_double_past_53_bits]
  rw [h]
  refine ⟨?_, ?_⟩
  · norm_num [huge_payoffs]
  · norm_num [huge_payoffs]

/-- C2, amended: for distinct agents `i ≠ j` whose payoffs are integers of
magnitude at most `2 ^ 52`, `apply_payoff i j ai aj`, computed in double
arithmetic, adds to `(payoff[i], payoff[j])` exactly `(3, 3)` when both
cooperate, `(0, 5)` when `i` cooperates and `j` defects, `(5, 0)` when `i`
defects and `j` cooperates, `(1, 1)` when both defect; every other agent is left
as it was, no agent's strategy, last action or grudge flag changes, and the
network, the draw counter, the cooperation counter and the output are
untouched.  There the double computation is the one with exact sums. -/
theorem apply_payoff_double_spec (s : Sim) (i j : Nat) (ai aj : Int) (hij : i ≠ j)
    (hi : ∃ n : ℤ, |n| ≤ 2 ^ 52 ∧ (s.agents i).payoff = (n : ℚ))
    (hj : ∃ n : ℤ, |n| ≤ 2 ^ 52 ∧ (s.agents j).payoff = (n : ℚ)) :
    (ai = 1 → aj = 1 →
      ((apply_payoff_double s i j ai aj).agents i).payoff = (s.agents i).payoff + 3 ∧
      ((apply_payoff_double s i j ai aj).agents j).payoff = (s.agents j).payoff + 3) ∧
    (ai = 1 → aj = 0 →
      ((apply_payoff_double s i j ai aj).agents i).payoff = (s.agents i).payoff + 0 ∧
      ((apply_payoff_double s i j ai aj).agents j).payoff = (s.agents j).payoff + 5) ∧
    (ai = 0 → aj = 1 →
      ((apply_payoff_double s i j ai aj).agents i).payoff = (s.agents i).payoff + 5 ∧
      ((apply_payoff_double s i j ai aj).agents j).payoff = (s.agents j).payoff + 0) ∧
    (ai = 0 → aj = 0 →
      ((apply_payoff_double s i j ai aj).agents i).payoff = (s.agents i).payoff + 1 ∧
      ((apply_payoff_double s i j ai aj).agents j).payoff = (s.agents j).payoff + 1) ∧
    (∀ k, k ≠ i → k ≠ j → (apply_payoff_double s i j ai aj).agents k = s.agents k) ∧
    (∀ k, ((apply_payoff_double s i j ai aj).agents k).strategy = (s.agents k).strategy ∧
      ((apply_payoff_double s i j ai aj).agents k).last_action = (s.agents k).last_action ∧
      ((apply_payoff_double s i j ai aj).agents k).grudged = (s.agents k).grudged) ∧
    (apply_payoff_double s i j ai aj).network = s.network ∧
    (apply_payoff_double s i j ai aj).rand_calls = s.rand_calls ∧
    (apply_payoff_double s i j ai aj).coop_count = s.coop_count ∧
    (apply_payoff_double s i j ai aj).out = s.out ∧
    apply_payoff_double s i j ai aj = apply_payoff s i j ai aj := by
  have he := apply_payoff_double_eq s i j ai aj hi hj
  obtain ⟨h1, h2, h3, h4, h5, h6, h7, h8, h9, h10⟩ := apply_payoff_exact s i j ai aj hij
  rw [he]
  exact ⟨h1, h2, h3, h4, h5, h6, h7, h8, h9, h10, rfl⟩

/-- C2, amended, at the sample state (payoffs 2 and 7): agent 0 cooperates,
agent 1 defects. -/
theorem apply_payoff_double_spec_witness :
    ((apply_payoff_double sample 0 1 1 0).agents 0).payoff = (sample.agents 0).payoff + 0 ∧
    ((apply_payoff_double sample 0 1 1 0).agents 1).payoff = (sample.agents 1).payoff + 5 :=
  (apply_payoff_double_spec sample 0 1 1 0 (by decide)
    ⟨2, by norm_num, by norm_num [sample]⟩ ⟨7, by norm_num, by norm_num [sample]⟩).2.1 rfl rfl

/-! ## Payoffs in a run are small integers -/

/-- The payoff of an agent after two exact `+=` of integer amounts. -/
theorem add_payoff_twice_payoff (s : Sim) (i j m : Nat) (a b : ℤ) :
    ((add_payoff (add_payoff s i (a : ℚ)) j (b : ℚ)).agents m).payoff
      = (s.agents m).payoff
        + (((if m = i then a else 0) + (if m = j then b else 0) : ℤ) : ℚ) := by
  rw [add_payoff_payoff, add_payoff_payoff]
  by_cases hi : m = i
  · by_cases hj : m = j
    · simp only [if_pos hi, if_pos hj]
      push_cast
      ring
    · simp only [if_pos hi, if_neg hj]
      push_cast
      ring
  · by_cases hj : m = j
    · simp only [if_neg hi, if_pos hj]
      push_cast
      ring
    · simp only [if_neg hi, if_neg hj]
      push_cast
      ring

/-- With exact sums `apply_payoff` adds an integer between 0 and 6 to every
agent's payoff. -/
theorem apply_payoff_increment (s : Sim) (i j m : Nat) (ai aj : Int) :
    ∃ v : ℤ, 0 ≤ v ∧ v ≤ 6 ∧
      ((apply_payoff s i j ai aj).agents m).payoff = (s.agents m).payoff + (v : ℚ) := by
  have hR : R = ((3 : ℤ) : ℚ) := by norm_num [R]
  have hT : T = ((5 : ℤ) : ℚ) := by norm_num [T]
  have hS : S = ((0 : ℤ) : ℚ) := by norm_num [S]
  have hP : P = ((1 : ℤ) : ℚ) := by norm_num [P]
  unfold apply_payoff
  split_ifs
  · rw [hR, add_payoff_twice_payoff]
    exact ⟨_, by split_ifs <;> omega, by split_ifs <;> omega, rfl⟩
  · rw [hS, hT, add_payoff_twice_payoff]
    exact ⟨_, by split_ifs <;> omega, by split_ifs <;> omega, rfl⟩
  · rw [hS, hT, add_payoff_twice_payoff]
    exact ⟨_, by split_ifs <;> omega, by split_ifs <;> omega, rfl⟩
  · rw [hP, add_payoff_twice_payoff]
    exact ⟨_, by split_ifs <;> omega, by split_ifs <;> omega, rfl⟩

/-- One interaction raises the bound on the payoffs by at most 6. -/
theorem interaction_payoffs_at_most (E : Libc) (p_noise : ℚ) (i d : Nat) (b : ℤ)
    (s : Sim) (hs : payoffs_at_most b s) :
    payoffs_at_most (b + 6) (interaction E p_noise i d s) := by
  intro k hk
  obtain ⟨n, h0, h1, h2⟩ := hs k hk
  obtain ⟨v, v0, v1, hv⟩ := apply_payoff_increment s i (s.network i d)
    k (noisy_ai E p_noise i d s) (noisy_aj E p_noise i d s)
  refine ⟨n + v, by omega, by omega, ?_⟩
  rw [interaction_payoff, hv, h2]
  push_cast
  rfl

/-- Where the payoffs of `i` and of its neighbor are integers of magnitude at
most `2 ^ 52`, the interaction with double payoff sums is the interaction with
exact ones. -/
theorem interaction_double_payoffs_eq (E : Libc) (p_noise : ℚ) (i d : Nat) (s : Sim)
    (hi : ∃ n : ℤ, |n| ≤ 2 ^ 52 ∧ (s.agents i).payoff = (n : ℚ))
    (hj : ∃ n : ℤ, |n| ≤ 2 ^ 52 ∧ (s.agents (s.network i d)).payoff = (n : ℚ)) :
    interaction_double_payoffs E p_noise i d s = interaction E p_noise i d s := by
  have key : ∀ u : Sim, (∀ m, (u.agents m).payoff = (s.agents m).payoff) →
      apply_payoff_double u i (s.network i d) (noisy_ai E p_noise i d s)
          (noisy_aj E p_noise i d s)
        = apply_payoff u i (s.network i d) (noisy_ai E p_noise i d s)
          (noisy_aj E p_noise i d s) := by
    intro u hu
    refine apply_payoff_double_eq u i _ _ _ ?_ ?_
    · rw [hu]; exact hi
    · rw [hu]; exact hj
  simp only [interaction_double_payoffs, interaction]
  split_ifs <;> rw [key _ (by intro m; simp)]

/-- From a state with a well-formed network and all payoffs at 0, the
interaction loops with double payoff sums are the loops with exact ones. -/
theorem interactions_double_payoffs_eq (E : Libc) (p_noise : ℚ) (s : Sim)
    (hn : network_ok s) (h0 : payoffs_at_most 0 s) :
    interactions_double_payoffs E p_noise s = interactions E p_noise s := by
  have hstep : ∀ i d, i < N_AGENTS → d < DEGREE → ∀ t t1 : Sim,
      (t = t1 ∧ network_ok t1 ∧ payoffs_at_most (6 * ((i * DEGREE + d : Nat) : ℤ)) t1) →
      (interaction_double_payoffs E p_noise i d t = interaction E p_noise i d t1 ∧
        network_ok (interaction E p_noise i d t1) ∧
        payoffs_at_most (6 * ((i * DEGREE + d + 1 : Nat) : ℤ))
          (interaction E p_noise i d t1)) := by
    intro i d hi hd t t1 ht
    obtain ⟨h1, h2, h3⟩ := ht
    have hsmall : ∀ k, k < N_AGENTS →
        ∃ n : ℤ, |n| ≤ 2 ^ 52 ∧ (t1.agents k).payoff = (n : ℚ) := by
      intro k hk
      obtain ⟨n, n0, n1, n2⟩ := h3 k hk
      refine ⟨n, ?_, n2⟩
      norm_num
      simp only [N_AGENTS, DEGREE] at hi hd n1
      push_cast at n1
      exact abs_le.mpr ⟨by omega, by omega⟩
    refine ⟨?_, ?_, ?_⟩
    · rw [h1]
      exact interaction_double_payoffs_eq E p_noise i d t1 (hsmall i hi)
        (hsmall _ (h2 i d hi hd))
    · intro a b ha hb
      rw [interaction_network]
      exact h2 a b ha hb
    · have h4 := interaction_payoffs_at_most E p_noise i d _ t1 h3
      have he : 6 * ((i * DEGREE + d : Nat) : ℤ) + 6 = 6 * ((i * DEGREE + d + 1 : Nat) : ℤ) := by
        push_cast
        ring
      rw [he] at h4
      exact h4
  have h := nested_forLoop_rel
    (fun c (t t1 : Sim) => t = t1 ∧ network_ok t1 ∧ payoffs_at_most (6 * (c : ℤ)) t1)
    (interaction_double_payoffs E p_noise) (interaction E p_noise) N_AGENTS DEGREE hstep s s
    ⟨rfl, hn, by simpa using h0⟩
  unfold interactions_double_payoffs interactions
  exact h.1

/-- From any state with a well-formed network, a time step with double payoff
sums is the time step with exact ones. -/
theorem step_double_payoffs_eq (E : Libc) (p_noise : ℚ) (t : Nat) (s : Sim)
    (hn : network_ok s) : step_double_payoffs E p_noise t s = step E p_noise t s := by
  have n1 : network_ok { forLoop reset_payoff N_AGENTS s with coop_count := 0 } := by
    intro a b ha hb
    show (forLoop reset_payoff N_AGENTS s).network a b < N_AGENTS
    rw [reset_loop_network]
    exact hn a b ha hb
  have p1 : payoffs_at_most 0 { forLoop reset_payoff N_AGENTS s with coop_count := 0 } := by
    intro k hk
    refine ⟨0, le_refl 0, le_refl 0, ?_⟩
    show ((forLoop reset_payoff N_AGENTS s).agents k).payoff = ((0 : ℤ) : ℚ)
    rw [reset_loop_payoff N_AGENTS s k hk]
    norm_num
  have h := interactions_double_payoffs_eq E p_noise _ n1 p1
  unfold step_double_payoffs step
  simp only []
  rw [h]

/-- In every run the payoffs are small integers, so the run with double payoff
sums is the run with exact ones: from any state with a well-formed network, in
particular from the state after initialisation, for any number of steps. -/
theorem evolve_double_payoffs_eq (E : Libc) (p_noise : ℚ) (n : Nat) (s : Sim)
    (hn : network_ok s) :
    evolve_double_payoffs E p_noise n s = evolve E p_noise n s := by
  have h := forLoop_rel (fun _ (u u1 : Sim) => u = u1 ∧ network_ok u1)
    (step_double_payoffs E p_noise) (step E p_noise) n
    (fun t _ u u1 hu => by
      obtain ⟨h1, h2⟩ := hu
      refine ⟨by rw [h1]; exact step_double_payoffs_eq E p_noise t u1 h2, ?_⟩
      intro a b ha hb
      rw [later_network (later_step E p_noise t u1)]
      exact h2 a b ha hb)
    s s ⟨rfl, hn⟩
  unfold evolve_double_payoffs evolve
  exact h.1

/-- The run of `main` with double payoff sums is the run with exact ones. -/
theorem main_double_payoffs_eq (E : Libc) (p_noise : ℚ) :
    evolve_double_payoffs E p_noise N_STEPS (init E) = evolve E p_noise N_STEPS (init E) :=
  evolve_double_payoffs_eq E p_noise N_STEPS (init E) (init_network_ok_after_init E)

end PdSimulation
